import Mathlib

/-!
mod_dechunk: buffered replay of a chunked request body.

A shallow embedding of `src/mod_dechunk.c` and of the APR / httpd library
calls it makes, followed by theorems about the replay filter
(`mod_dechunk_replay_kept_body`), the body collector (`read_complete_body`)
and the handler (`mod_dechunk_handler`).

Modelling conventions.

* A bucket brigade (a ring of buckets with a sentinel) is a `List apr_bucket`.
  A bucket pointer is the index of the bucket in the list; the index equal to
  the length of the list is the ring sentinel `APR_BRIGADE_SENTINEL`.
* Only buckets of known length appear: data buckets (heap, transient,
  immortal) carrying their bytes, and the metadata buckets EOS and FLUSH of
  length 0. These are the buckets the HTTP input filters hand out.
* `apr_off_t` and `apr_status_t` are `Int`. The offsets the module computes
  are bounded by the length of the buffered body, so 64-bit wrap-around is
  not modelled.
* Pools, allocation and logging (`ap_log_rerror`) are not modelled.
-/

namespace ModDechunk

/-! ## Status codes and constants of APR / httpd -/

/-- The C type apr_status_t. -/
abbrev apr_status_t := Int

/-- The C type apr_off_t. -/
abbrev apr_off_t := Int

def APR_SUCCESS : apr_status_t := 0

/-- The errno value EINVAL. -/
def APR_EINVAL : apr_status_t := 22

/-- APR_OS_START_STATUS + 8. -/
def APR_INCOMPLETE : apr_status_t := 70008

/-- APR_OS_START_STATUS + 14. -/
def APR_EOF : apr_status_t := 70014

/-- APR_OS_START_STATUS + 23. -/
def APR_ENOTIMPL : apr_status_t := 70023

/-- The httpd filter status "error already reported" (util_filter.h). -/
def AP_FILTER_ERROR : apr_status_t := -102

/-- The handler return value DECLINED (httpd.h). -/
def DECLINED : Int := -1

/-- The HTTP status 500 (httpd.h). -/
def HTTP_INTERNAL_SERVER_ERROR : Int := 500

/-- The default read size HUGE_STRING_LEN (httpd.h). -/
def HUGE_STRING_LEN : apr_off_t := 8192

/-- The macro APR_STATUS_IS_EOF on Unix: equality with APR_EOF. -/
def APR_STATUS_IS_EOF (s : apr_status_t) : Bool := decide (s = APR_EOF)

/-! ## Buckets and brigades -/

/-- The storage kinds of data buckets that matter to the module. -/
inductive bucket_kind where
  | heap
  | transient
  | immortal
  deriving DecidableEq, Repr

/-- A bucket: a data bucket with its bytes, or a metadata bucket. -/
inductive apr_bucket where
  | data (kind : bucket_kind) (bytes : List UInt8)
  | eos
  | flush
  deriving DecidableEq, Repr

/-- A brigade: the buckets of the ring from first to last. -/
abbrev apr_bucket_brigade := List apr_bucket

/-- The field e->length. -/
def apr_bucket.length : apr_bucket → Nat
  | .data _ bytes => bytes.length
  | .eos => 0
  | .flush => 0

/-- The bytes a bucket carries (what apr_bucket_read returns). -/
def apr_bucket.bytes : apr_bucket → List UInt8
  | .data _ bytes => bytes
  | .eos => []
  | .flush => []

/-- The macro APR_BUCKET_IS_EOS. -/
def APR_BUCKET_IS_EOS : apr_bucket → Bool
  | .eos => true
  | _ => false

/-- The macro APR_BUCKET_IS_TRANSIENT. -/
def APR_BUCKET_IS_TRANSIENT : apr_bucket → Bool
  | .data .transient _ => true
  | _ => false

/-- The call apr_bucket_copy: a new bucket of the same type over the same bytes. -/
def apr_bucket_copy (e : apr_bucket) : apr_bucket := e

/-- The call apr_bucket_setaside: a transient bucket becomes a heap bucket
holding a private copy of its bytes; the other modelled types stay as they are. -/
def apr_bucket_setaside : apr_bucket → apr_bucket
  | .data .transient bytes => .data .heap bytes
  | e => e

/-- The call apr_bucket_split(e, point): status and the bucket(s) that stand in
the ring where e stood. Data buckets split in two; metadata buckets do not
implement split. -/
def apr_bucket_split : apr_bucket → Nat → apr_status_t × List apr_bucket
  | .data k bytes, point =>
    if point > bytes.length then (APR_EINVAL, [.data k bytes])
    else (APR_SUCCESS, [.data k (bytes.take point), .data k (bytes.drop point)])
  | e, _ => (APR_ENOTIMPL, [e])

/-- The bytes of a brigade, in order. -/
def brigade_bytes : apr_bucket_brigade → List UInt8
  | [] => []
  | e :: rest => e.bytes ++ brigade_bytes rest

/-- The loop of apr_brigade_length(bb, 1, &length): total accumulates e->length. -/
def apr_brigade_length_loop : List apr_bucket → apr_off_t → apr_off_t
  | [], total => total
  | bkt :: rest, total => apr_brigade_length_loop rest (total + (bkt.length : Int))

/-- The call apr_brigade_length(bb, 1, &length) on buckets of known length. -/
def apr_brigade_length (bb : apr_bucket_brigade) : apr_off_t :=
  apr_brigade_length_loop bb 0

/-- What apr_brigade_partition leaves behind. -/
structure partition_result where
  /-- The returned status. -/
  status : apr_status_t
  /-- The brigade after the call (a bucket may have been split in place). -/
  bb : apr_bucket_brigade
  /-- The index of *after_point in bb (bb.length is the sentinel); 0 when the
  call does not write it. -/
  after_point : Nat
  /-- The index in bb of the bucket a split inserted, if one was split. -/
  inserted : Option Nat
  deriving DecidableEq, Repr

/-- The for loop of apr_brigade_partition over the buckets from e on, with
point64 the bytes still to skip and idx the index of e. -/
def apr_brigade_partition_loop : List apr_bucket → Nat → Nat → partition_result
  | [], _, idx => ⟨APR_INCOMPLETE, [], idx, none⟩
  | e :: rest, point64, idx =>
    if point64 < e.length then
      let r := apr_bucket_split e point64
      ⟨r.1, r.2 ++ rest, idx + 1, if r.2.length = 2 then some (idx + 1) else none⟩
    else if point64 = e.length then
      ⟨APR_SUCCESS, e :: rest, idx + 1, none⟩
    else
      let r := apr_brigade_partition_loop rest (point64 - e.length) (idx + 1)
      ⟨r.status, e :: r.bb, r.after_point, r.inserted⟩

/-- The call apr_brigade_partition(b, point, &after_point). -/
def apr_brigade_partition (b : apr_bucket_brigade) (point : apr_off_t) : partition_result :=
  if point < 0 then ⟨APR_EINVAL, b, 0, none⟩
  else if point = 0 then ⟨APR_SUCCESS, b, 0, none⟩
  else apr_brigade_partition_loop b point.toNat 0

/-! ## The input filter chain -/

/-- The C enum ap_input_mode_t. -/
inductive ap_input_mode_t where
  | AP_MODE_READBYTES
  | AP_MODE_GETLINE
  | AP_MODE_EATCRLF
  | AP_MODE_SPECULATIVE
  | AP_MODE_EXHAUSTIVE
  | AP_MODE_INIT
  deriving DecidableEq, Repr

/-- The C enum apr_read_type_e. -/
inductive apr_read_type_e where
  | APR_BLOCK_READ
  | APR_NONBLOCK_READ
  deriving DecidableEq, Repr

/-- The rest of the input filter chain as seen through ap_get_brigade: from
its state, the caller's brigade and the read arguments it gives a status, the
brigade after the call and its next state. -/
abbrev input_filter (σ : Type) :=
  σ → apr_bucket_brigade → ap_input_mode_t → apr_read_type_e → apr_off_t →
    apr_status_t × apr_bucket_brigade × σ

/-! ## The replay filter -/

/-- The C struct replay_ctx_t. -/
structure replay_ctx_t where
  kept_body : apr_bucket_brigade
  offset : apr_off_t
  remaining : apr_off_t
  deriving DecidableEq, Repr

/-- How a call of the replay filter ends. -/
inductive replay_outcome (σ : Type) where
  /-- The call returns status, with the caller's brigade b, the filter context
  and the state of the next filter as they are at the return. -/
  | returned (status : apr_status_t) (b : apr_bucket_brigade) (ctx : replay_ctx_t) (next : σ)
  /-- The copy loop reached the ring sentinel and called apr_bucket_copy on it:
  the behaviour of the C program is undefined from there. The fields are the
  caller's brigade, the context and the next filter at that point. -/
  | undefined (b : apr_bucket_brigade) (ctx : replay_ctx_t) (next : σ)
  deriving DecidableEq, Repr

/-- The do-while loop of lines 73-78. The list holds the buckets from ec up to
the sentinel, ec is the index of its head. The flag is true when the loop
left through its test ec != e2 and false when ec arrived at the sentinel. -/
def replay_copy_loop (e2 : Nat) : List apr_bucket → Nat → apr_bucket_brigade →
    apr_bucket_brigade × Bool
  | [], _, b => (b, false)
  | e :: rest, ec, b =>
    let b1 := b ++ [apr_bucket_copy e]
    if ec + 1 ≠ e2 then replay_copy_loop e2 rest (ec + 1) b1 else (b1, true)

/-- The index of the bucket ec points to once the second partition is done:
a bucket inserted at or before it moves it one place up. -/
def ec_after_partition (ec : Nat) (inserted : Option Nat) : Nat :=
  match inserted with
  | some k => if k ≤ ec then ec + 1 else ec
  | none => ec

/-- The filter function mod_dechunk_replay_kept_body(f, b, mode, block, readbytes),
with ctx = f->ctx, next = f->next and up the state of f->next. -/
def mod_dechunk_replay_kept_body {σ : Type} (next : input_filter σ) (ctx : replay_ctx_t)
    (up : σ) (b : apr_bucket_brigade) (mode : ap_input_mode_t) (block : apr_read_type_e)
    (readbytes : apr_off_t) : replay_outcome σ :=
  if mode ≠ .AP_MODE_READBYTES ∧ mode ≠ .AP_MODE_GETLINE then
    let r := next up b mode block readbytes
    .returned r.1 r.2.1 ctx r.2.2
  else if ctx.remaining ≤ 0 then
    let r := next up b mode block readbytes
    .returned r.1 r.2.1 ctx r.2.2
  else
    let readbytes := if readbytes > ctx.remaining then ctx.remaining else readbytes
    let p1 := apr_brigade_partition ctx.kept_body ctx.offset
    if p1.status ≠ APR_SUCCESS then
      .returned p1.status b { ctx with kept_body := p1.bb } up
    else
      let p2 := apr_brigade_partition p1.bb (ctx.offset + readbytes)
      if p2.status ≠ APR_SUCCESS then
        .returned p2.status b { ctx with kept_body := p2.bb } up
      else
        let ec := ec_after_partition p1.after_point p2.inserted
        let r := replay_copy_loop p2.after_point (p2.bb.drop ec) ec b
        if r.2 then
          .returned APR_SUCCESS r.1
            { kept_body := p2.bb, offset := ctx.offset + readbytes,
              remaining := ctx.remaining - readbytes } up
        else
          .undefined r.1 { ctx with kept_body := p2.bb } up

/-- One read request of a downstream reader: the arguments of ap_get_brigade. -/
structure read_request where
  mode : ap_input_mode_t
  block : apr_read_type_e
  readbytes : apr_off_t
  deriving DecidableEq, Repr

/-- A downstream reader that issues the reads rs in order, each into an empty
brigade, and records how each call ended. The run ends with the list, or at a
call whose behaviour is undefined. -/
def replay_reads {σ : Type} (next : input_filter σ) :
    List read_request → replay_ctx_t → σ → List (replay_outcome σ)
  | [], _, _ => []
  | r :: rs, ctx, up =>
    match mod_dechunk_replay_kept_body next ctx up [] r.mode r.block r.readbytes with
    | .returned status b ctx1 up1 =>
      .returned status b ctx1 up1 :: replay_reads next rs ctx1 up1
    | .undefined b ctx1 up1 => [.undefined b ctx1 up1]

/-- A downstream reader that drains the buffered body: it issues the reads rs
in order, all appending to the one brigade b, for as long as the filter has
bytes left (remaining > 0), and gives up at the first call that fails. -/
def replay_drain {σ : Type} (next : input_filter σ) :
    List read_request → replay_ctx_t → σ → apr_bucket_brigade → replay_outcome σ
  | [], ctx, up, b => .returned APR_SUCCESS b ctx up
  | r :: rs, ctx, up, b =>
    if ctx.remaining ≤ 0 then .returned APR_SUCCESS b ctx up
    else
      match mod_dechunk_replay_kept_body next ctx up b r.mode r.block r.readbytes with
      | .returned status b1 ctx1 up1 =>
        if status = APR_SUCCESS then replay_drain next rs ctx1 up1 b1
        else .returned status b1 ctx1 up1
      | .undefined b1 ctx1 up1 => .undefined b1 ctx1 up1

/-- The context a call leaves behind, at its return or at the point where its
behaviour becomes undefined. -/
def replay_outcome.ctx {σ : Type} : replay_outcome σ → replay_ctx_t
  | .returned _ _ ctx _ => ctx
  | .undefined _ ctx _ => ctx

/-- The caller's brigade as a call leaves it. -/
def replay_outcome.b {σ : Type} : replay_outcome σ → apr_bucket_brigade
  | .returned _ b _ _ => b
  | .undefined b _ _ => b

/-! ## The body collector -/

/-- The ITER_BRIGADE loop of lines 125-142 over the buckets of tmp_bb. -/
def read_complete_body_iter : List apr_bucket → apr_bucket_brigade → Bool →
    apr_bucket_brigade × Bool
  | [], kept_body, eos_seen => (kept_body, eos_seen)
  | t_bucket1 :: rest, kept_body, eos_seen =>
    let t_bucket2 := apr_bucket_copy t_bucket1
    let t_bucket2 :=
      if APR_BUCKET_IS_TRANSIENT t_bucket2 then apr_bucket_setaside t_bucket2 else t_bucket2
    let kept_body := kept_body ++ [t_bucket2]
    let eos_seen := if !eos_seen && APR_BUCKET_IS_EOS t_bucket1 then true else eos_seen
    read_complete_body_iter rest kept_body eos_seen

/-- The while loop of read_complete_body. The fuel bounds the number of times
the loop test is evaluated; none means the fuel ran out. The source is read
with an empty tmp_bb (it is created empty and cleaned up after every round). -/
def read_complete_body_loop {σ : Type} (src : input_filter σ) :
    Nat → σ → apr_bucket_brigade → Bool → Option (apr_status_t × apr_bucket_brigade × σ)
  | 0, _, _, _ => none
  | fuel + 1, up, kept_body, eos_seen =>
    if eos_seen then some (APR_SUCCESS, kept_body, up)
    else
      let r := src up [] .AP_MODE_READBYTES .APR_BLOCK_READ HUGE_STRING_LEN
      let status := r.1
      if status = AP_FILTER_ERROR then some (AP_FILTER_ERROR, kept_body, r.2.2)
      else if APR_STATUS_IS_EOF status then some (APR_SUCCESS, kept_body, r.2.2)
      else if status ≠ APR_SUCCESS then some (status, kept_body, r.2.2)
      else
        let it := read_complete_body_iter r.2.1 kept_body eos_seen
        read_complete_body_loop src fuel r.2.2 it.1 it.2

/-- The function read_complete_body(r, kept_body): status, kept_body and the
state of r->input_filters at the return. -/
def read_complete_body {σ : Type} (src : input_filter σ) (fuel : Nat) (up : σ)
    (kept_body : apr_bucket_brigade) : Option (apr_status_t × apr_bucket_brigade × σ) :=
  read_complete_body_loop src fuel up kept_body false

/-- What the collector retains of a bucket of the source: a copy, set aside
when it is transient. -/
def kept_copy (e : apr_bucket) : apr_bucket :=
  if APR_BUCKET_IS_TRANSIENT (apr_bucket_copy e) then apr_bucket_setaside (apr_bucket_copy e)
  else apr_bucket_copy e

/-- One read of the collector on the source. -/
def source_read {σ : Type} (src : input_filter σ) (up : σ) :
    apr_status_t × apr_bucket_brigade × σ :=
  src up [] .AP_MODE_READBYTES .APR_BLOCK_READ HUGE_STRING_LEN

/-- The answers (status and buckets) of the source to the first n reads of the
collector. -/
def source_rounds {σ : Type} (src : input_filter σ) : Nat → σ →
    List (apr_status_t × apr_bucket_brigade)
  | 0, _ => []
  | n + 1, up =>
    ((source_read src up).1, (source_read src up).2.1) ::
      source_rounds src n (source_read src up).2.2

/-- The state of the source after n reads of the collector. -/
def source_state {σ : Type} (src : input_filter σ) : Nat → σ → σ
  | 0, up => up
  | n + 1, up => source_state src n (source_read src up).2.2

/-- All buckets of a list of rounds, in order. -/
def rounds_buckets : List (apr_status_t × apr_bucket_brigade) → List apr_bucket
  | [] => []
  | r :: rs => r.2 ++ rounds_buckets rs

/-! ## Header tables and strings -/

/-- The request header table: entries in insertion order. -/
abbrev apr_table_t := List (String × String)

/-- Key comparison of apr tables: strcasecmp is 0. -/
def key_eq (a b : String) : Bool :=
  decide (a.data.map Char.toLower = b.data.map Char.toLower)

/-- The call apr_table_get: the value of the first entry with the key. -/
def apr_table_get : apr_table_t → String → Option String
  | [], _ => none
  | (k, v) :: rest, key => if key_eq k key then some v else apr_table_get rest key

/-- The call apr_table_unset: every entry with the key is removed. -/
def apr_table_unset (t : apr_table_t) (key : String) : apr_table_t :=
  t.filter (fun kv => !key_eq kv.1 key)

/-- The call apr_table_setn: the first entry with the key gets the value and
the other entries with the key are removed; without such an entry one is added
at the end. -/
def apr_table_setn : apr_table_t → String → String → apr_table_t
  | [], key, val => [(key, val)]
  | (k, v) :: rest, key, val =>
    if key_eq k key then (k, val) :: apr_table_unset rest key
    else (k, v) :: apr_table_setn rest key val

/-- The macro apr_isspace in the C locale. -/
def apr_isspace (c : Char) : Bool :=
  c.toNat = 32 || (9 ≤ c.toNat && c.toNat ≤ 13)

/-- The macro apr_isdigit. -/
def apr_isdigit (c : Char) : Bool :=
  48 ≤ c.toNat && c.toNat ≤ 57

/-- The macro apr_toupper in the C locale. -/
def apr_toupper (c : Char) : Char := c.toUpper

/-- The character a C string pointer points to: the head of what is left of
the string, or the terminating NUL. -/
def cstr_head (a : List Char) : Char := a.headD (Char.ofNat 0)

/-- The function compare_right of apr_strnatcmp.c on the rest of both strings. -/
def compare_right : List Char → List Char → Int → Int
  | [], b, bias => if !apr_isdigit (cstr_head b) then bias else -1
  | ca :: _, [], bias => if !apr_isdigit ca then bias else 1
  | ca :: a, cb :: b, bias =>
    if !apr_isdigit ca && !apr_isdigit cb then bias
    else if !apr_isdigit ca then -1
    else if !apr_isdigit cb then 1
    else if ca < cb then compare_right a b (if bias = 0 then -1 else bias)
    else if ca > cb then compare_right a b (if bias = 0 then 1 else bias)
    else compare_right a b bias

/-- The function compare_left of apr_strnatcmp.c on the rest of both strings. -/
def compare_left : List Char → List Char → Int
  | [], b => if !apr_isdigit (cstr_head b) then 0 else -1
  | ca :: _, [] => if !apr_isdigit ca then 0 else 1
  | ca :: a, cb :: b =>
    if !apr_isdigit ca && !apr_isdigit cb then 0
    else if !apr_isdigit ca then -1
    else if !apr_isdigit cb then 1
    else if ca < cb then -1
    else if ca > cb then 1
    else compare_left a b

/-- The function strnatcmp0 of apr_strnatcmp.c: a and b are what is left of the
two strings from the indices ai and bi on. The fuel bounds the iterations of
the while loop; each one that goes on consumes a character of both strings. -/
def strnatcmp0 : Nat → List Char → List Char → Bool → Int
  | 0, _, _, _ => 0
  | fuel + 1, a, b, fold_case =>
    let a := a.dropWhile apr_isspace
    let b := b.dropWhile apr_isspace
    let ca := cstr_head a
    let cb := cstr_head b
    let result :=
      if apr_isdigit ca && apr_isdigit cb then
        if ca.toNat = 48 || cb.toNat = 48 then compare_left a b else compare_right a b 0
      else 0
    if result ≠ 0 then result
    else if ca.toNat = 0 && cb.toNat = 0 then 0
    else
      let ca := if fold_case then apr_toupper ca else ca
      let cb := if fold_case then apr_toupper cb else cb
      if ca < cb then -1
      else if ca > cb then 1
      else strnatcmp0 fuel a.tail b.tail fold_case

/-- The call apr_strnatcasecmp(a, b). -/
def apr_strnatcasecmp (a b : String) : Int :=
  strnatcmp0 (a.length + 1) a.data b.data true

/-- The do-while loop of apr_off_t_toa: the digits of n are put in front of
start, the least significant first. -/
def apr_off_t_toa_loop : Nat → Nat → List Char → List Char
  | 0, _, start => start
  | fuel + 1, n, start =>
    let start := Char.ofNat (48 + n % 10) :: start
    if n / 10 ≠ 0 then apr_off_t_toa_loop fuel (n / 10) start else start

/-- The call apr_off_t_toa(pool, n): n in decimal. -/
def apr_off_t_toa (n : apr_off_t) : String :=
  let digits := apr_off_t_toa_loop (n.natAbs + 1) n.natAbs []
  String.mk (if n < 0 then Char.ofNat 45 :: digits else digits)

/-! ## The handler -/

/-- The parts of request_rec the handler touches. -/
structure request_rec (σ : Type) where
  /-- The flag cfg->dechunk_on of the module configuration of r->server. -/
  dechunk_on : Int
  /-- The table r->headers_in. -/
  headers_in : apr_table_t
  /-- The state of the chain r->input_filters the body is read from. -/
  input_filters : σ
  /-- The contexts of the replay filters added with ap_add_input_filter, the
  newest first. -/
  replay_filters : List replay_ctx_t

/-- The function mod_dechunk_handler(r): the returned value and the request
as the call leaves it; none when the collection runs out of fuel. -/
def mod_dechunk_handler {σ : Type} (src : input_filter σ) (fuel : Nat) (r : request_rec σ) :
    Option (Int × request_rec σ) :=
  if r.dechunk_on = 0 then some (DECLINED, r)
  else
    match apr_table_get r.headers_in "Transfer-Encoding" with
    | none => some (DECLINED, r)
    | some tenc =>
      if apr_strnatcasecmp tenc "chunked" ≠ 0 then some (DECLINED, r)
      else
        match read_complete_body src fuel r.input_filters [] with
        | none => none
        | some (status, kept_body, up) =>
          if status = AP_FILTER_ERROR then
            some (HTTP_INTERNAL_SERVER_ERROR, { r with input_filters := up })
          else if status ≠ APR_SUCCESS then
            some (HTTP_INTERNAL_SERVER_ERROR, { r with input_filters := up })
          else
            let headers_in := apr_table_unset r.headers_in "Transfer-Encoding"
            let content_length := apr_brigade_length kept_body
            let headers_in :=
              apr_table_setn headers_in "Content-Length" (apr_off_t_toa content_length)
            let ctx : replay_ctx_t :=
              { kept_body := kept_body, offset := 0, remaining := content_length }
            some (DECLINED,
              { r with headers_in := headers_in, input_filters := up,
                       replay_filters := ctx :: r.replay_filters })

/-! ## Reference notions and sample environments -/

/-- The sum of the byte lengths of the data segments of a brigade; the end
marker and the other metadata segments count for nothing. -/
def data_length_sum : apr_bucket_brigade → Nat
  | [] => 0
  | .data _ bytes :: rest => bytes.length + data_length_sum rest
  | .eos :: rest => data_length_sum rest
  | .flush :: rest => data_length_sum rest

/-- A next filter with nothing left to deliver: every read leaves the brigade
as it is and reports end of file. -/
def drained_filter : input_filter Unit :=
  fun _ b _ _ _ => (APR_EOF, b, ())

/-- A source that plays back a script of rounds, one per read: the status of
the round is returned and its buckets are appended to the brigade. After the
script it reports end of file. -/
def scripted_source : input_filter (List (apr_status_t × apr_bucket_brigade)) :=
  fun s b _ _ _ =>
    match s with
    | [] => (APR_EOF, b, [])
    | r :: rs => (r.1, b ++ r.2, rs)

/-- A sample cursor: 5 buffered bytes and the end marker, 2 bytes delivered,
3 remaining. -/
def sample_ctx : replay_ctx_t :=
  { kept_body := [.data .heap [1, 2, 3, 4, 5], .eos], offset := 2, remaining := 3 }

/-- A sample exhausted cursor over the same store. -/
def sample_ctx_done : replay_ctx_t :=
  { kept_body := [.data .heap [1, 2, 3, 4, 5], .eos], offset := 5, remaining := 0 }

/-- A sample script: two bytes in a transient bucket, then one byte and the
end marker. -/
def sample_script : List (apr_status_t × apr_bucket_brigade) :=
  [(APR_SUCCESS, [.data .transient [1, 2]]), (APR_SUCCESS, [.data .heap [3], .eos])]

/-- A sample request with the module switched on and a chunked body. -/
def sample_request : request_rec (List (apr_status_t × apr_bucket_brigade)) :=
  { dechunk_on := 1,
    headers_in := [("Host", "example"), ("Transfer-Encoding", "chunked")],
    input_filters := sample_script,
    replay_filters := [] }

/-- A sample script that ends in the "error already reported" status after
one round of data. -/
def sample_script_fatal : List (apr_status_t × apr_bucket_brigade) :=
  [(APR_SUCCESS, [.data .transient [1, 2]]), (AP_FILTER_ERROR, [])]

/-- A sample script that ends in end of file after one round of data, without
an end marker. -/
def sample_script_eof : List (apr_status_t × apr_bucket_brigade) :=
  [(APR_SUCCESS, [.data .transient [1, 2]]), (APR_EOF, [])]

/-- The sample request with the module switched off. -/
def sample_request_off : request_rec (List (apr_status_t × apr_bucket_brigade)) :=
  { sample_request with dechunk_on := 0 }

/-- The sample request over the script that ends in the "error already
reported" status. -/
def sample_request_fatal : request_rec (List (apr_status_t × apr_bucket_brigade)) :=
  { sample_request with input_filters := sample_script_fatal }

/-- The bytes of "Hello". -/
def hello_bytes : List UInt8 := [72, 101, 108, 108, 111]

/-- The bytes of " World". -/
def world_bytes : List UInt8 := [32, 87, 111, 114, 108, 100]

/-- What the chunk filter delivers for the body
"5\r\nHello\r\n6\r\n World\r\n0\r\n\r\n": the two data segments, then the end
marker. -/
def hello_world_script : List (apr_status_t × apr_bucket_brigade) :=
  [(APR_SUCCESS, [.data .heap hello_bytes]),
   (APR_SUCCESS, [.data .heap world_bytes, .eos])]

/-- A chunked request whose body is "Hello World". -/
def hello_world_request : request_rec (List (apr_status_t × apr_bucket_brigade)) :=
  { dechunk_on := 1,
    headers_in := [("Host", "example"), ("Transfer-Encoding", "chunked")],
    input_filters := hello_world_script,
    replay_filters := [] }

/-- The value of a header without its whitespace characters, in upper case. -/
def squeeze_upper (s : String) : List Char :=
  (s.data.filter (fun c => !apr_isspace c)).map apr_toupper

/-- Correct bookkeeping of a cursor: offset and remaining are not negative and
add up to the byte length of kept_body. -/
def cursor_ok (ctx : replay_ctx_t) : Prop :=
  0 ≤ ctx.offset ∧ 0 ≤ ctx.remaining ∧
    ctx.offset + ctx.remaining = apr_brigade_length ctx.kept_body

/-- The sample request with a blank inside the Transfer-Encoding value. -/
def sample_request_spaced : request_rec (List (apr_status_t × apr_bucket_brigade)) :=
  { sample_request with
    headers_in := [("Host", "example"), ("Transfer-Encoding", "chun ked")] }

/-- The sample request with a list of two transfer codings. -/
def sample_request_gzip : request_rec (List (apr_status_t × apr_bucket_brigade)) :=
  { sample_request with
    headers_in := [("Host", "example"), ("Transfer-Encoding", "gzip, chunked")] }

/-! ## Bytes and lengths of brigades -/

theorem brigade_bytes_append (a b : apr_bucket_brigade) :
    brigade_bytes (a ++ b) = brigade_bytes a ++ brigade_bytes b := by
  induction a with
  | nil => rfl
  | cons e rest ih => simp [brigade_bytes, ih]

theorem bucket_length_eq (e : apr_bucket) : e.length = e.bytes.length := by
  cases e <;> rfl

theorem apr_brigade_length_loop_eq (l : List apr_bucket) (total : apr_off_t) :
    apr_brigade_length_loop l total = total + ((brigade_bytes l).length : Int) := by
  induction l generalizing total with
  | nil => simp [apr_brigade_length_loop, brigade_bytes]
  | cons e rest ih =>
    simp only [apr_brigade_length_loop, brigade_bytes, ih, List.length_append,
      bucket_length_eq]
    push_cast
    ring

theorem apr_brigade_length_eq (bb : apr_bucket_brigade) :
    apr_brigade_length bb = ((brigade_bytes bb).length : Int) := by
  simp [apr_brigade_length, apr_brigade_length_loop_eq]

theorem brigade_bytes_take_length_le (l : apr_bucket_brigade) (k : Nat) :
    (brigade_bytes (l.take k)).length ≤ (brigade_bytes l).length := by
  conv_rhs => rw [← List.take_append_drop k l, brigade_bytes_append]
  simp

theorem brigade_bytes_take_mono (l : apr_bucket_brigade) {j k : Nat} (h : j ≤ k) :
    (brigade_bytes (l.take j)).length ≤ (brigade_bytes (l.take k)).length := by
  have := brigade_bytes_take_length_le (l.take k) j
  rwa [List.take_take, Nat.min_eq_left h] at this

/-! ## The partition of a brigade -/

theorem apr_brigade_partition_loop_bytes (l : List apr_bucket) (q idx : Nat) :
    brigade_bytes (apr_brigade_partition_loop l q idx).bb = brigade_bytes l := by
  induction l generalizing q idx with
  | nil => rfl
  | cons e rest ih =>
    unfold apr_brigade_partition_loop
    split_ifs with h1 h2
    · cases e with
      | data k bytes =>
        simp only [apr_bucket.length] at h1
        have h3 : ¬ q > bytes.length := by omega
        simp only [apr_bucket_split, h3, if_false, brigade_bytes, apr_bucket.bytes,
          List.cons_append, List.nil_append]
        rw [← List.append_assoc, List.take_append_drop]
      | eos => simp [apr_bucket.length] at h1
      | flush => simp [apr_bucket.length] at h1
    · rfl
    · simp [brigade_bytes, ih]

theorem apr_brigade_partition_loop_ok (l : List apr_bucket) (q idx : Nat) (hq : 0 < q)
    (hle : q ≤ (brigade_bytes l).length) :
    (apr_brigade_partition_loop l q idx).status = APR_SUCCESS ∧
    idx < (apr_brigade_partition_loop l q idx).after_point ∧
    (apr_brigade_partition_loop l q idx).after_point - idx ≤
      (apr_brigade_partition_loop l q idx).bb.length ∧
    brigade_bytes ((apr_brigade_partition_loop l q idx).bb.take
      ((apr_brigade_partition_loop l q idx).after_point - idx)) = (brigade_bytes l).take q ∧
    (∀ k, (apr_brigade_partition_loop l q idx).inserted = some k →
      k = (apr_brigade_partition_loop l q idx).after_point) := by
  induction l generalizing q idx with
  | nil => simp [brigade_bytes] at hle; omega
  | cons e rest ih =>
    unfold apr_brigade_partition_loop
    split_ifs with h1 h2
    · cases e with
      | data k bytes =>
        simp only [apr_bucket.length] at h1
        have h3 : ¬ q > bytes.length := by omega
        have h4 : min q bytes.length = q := by omega
        simp [apr_bucket_split, h3, brigade_bytes, apr_bucket.bytes, List.take_append_eq_append_take,
          h4, List.take_of_length_le, Nat.le_of_lt h1, Nat.sub_eq_zero_of_le (Nat.le_of_lt h1)]
      | eos => simp [apr_bucket.length] at h1
      | flush => simp [apr_bucket.length] at h1
    · have h3 : q = e.bytes.length := by rw [← bucket_length_eq]; exact h2
      simp [brigade_bytes, h3]
    · have hlen : e.bytes.length < q := by
        rw [← bucket_length_eq]; omega
      have hle2 : q - e.length ≤ (brigade_bytes rest).length := by
        simp only [brigade_bytes, List.length_append] at hle
        rw [bucket_length_eq]; omega
      have hq2 : 0 < q - e.length := by rw [bucket_length_eq]; omega
      obtain ⟨i1, i2, i3, i4, i5⟩ := ih (q - e.length) (idx + 1) hq2 hle2
      dsimp only
      refine ⟨i1, by omega, ?_, ?_, i5⟩
      · simp only [List.length_cons]; omega
      · have h5 : (apr_brigade_partition_loop rest (q - e.length) (idx + 1)).after_point - idx =
            ((apr_brigade_partition_loop rest (q - e.length) (idx + 1)).after_point - (idx + 1)) + 1 := by
          omega
        simp only [h5, List.take_succ_cons, brigade_bytes, i4]
        rw [List.take_append_eq_append_take, List.take_of_length_le (Nat.le_of_lt hlen),
          bucket_length_eq]

theorem apr_brigade_partition_loop_incomplete (l : List apr_bucket) (q idx : Nat)
    (hlt : (brigade_bytes l).length < q) :
    (apr_brigade_partition_loop l q idx).status = APR_INCOMPLETE ∧
    (apr_brigade_partition_loop l q idx).bb = l ∧
    (apr_brigade_partition_loop l q idx).inserted = none := by
  induction l generalizing q idx with
  | nil => simp [apr_brigade_partition_loop]
  | cons e rest ih =>
    simp only [brigade_bytes, List.length_append] at hlt
    have h1 : ¬ q < e.length := by rw [bucket_length_eq]; omega
    have h2 : ¬ q = e.length := by rw [bucket_length_eq]; omega
    have h3 : (brigade_bytes rest).length < q - e.length := by rw [bucket_length_eq]; omega
    unfold apr_brigade_partition_loop
    simp only [h1, h2, if_false]
    obtain ⟨i1, i2, i3⟩ := ih (q - e.length) (idx + 1) h3
    exact ⟨i1, by rw [i2], i3⟩

theorem apr_brigade_partition_loop_take (l : List apr_bucket) (q idx k : Nat)
    (h : (brigade_bytes (l.take k)).length ≤ q) (hk : k ≤ l.length) (hq : 0 < q) :
    (apr_brigade_partition_loop l q idx).bb.take k = l.take k := by
  induction l generalizing q idx k with
  | nil => simp [apr_brigade_partition_loop]
  | cons e rest ih =>
    cases k with
    | zero => simp
    | succ k =>
      simp only [List.take_succ_cons, brigade_bytes, List.length_append] at h
      simp only [List.length_cons] at hk
      have h1 : ¬ q < e.length := by rw [bucket_length_eq]; omega
      unfold apr_brigade_partition_loop
      simp only [h1, if_false]
      split_ifs with h2
      · rfl
      · have hq2 : 0 < q - e.length := by omega
        have h3 : (brigade_bytes (rest.take k)).length ≤ q - e.length := by
          rw [bucket_length_eq]; omega
        simp only [List.take_succ_cons, ih (q - e.length) (idx + 1) k h3 (by omega) hq2]

theorem apr_brigade_partition_bytes (bb : apr_bucket_brigade) (p : apr_off_t) :
    brigade_bytes (apr_brigade_partition bb p).bb = brigade_bytes bb := by
  unfold apr_brigade_partition
  split_ifs
  · rfl
  · rfl
  · exact apr_brigade_partition_loop_bytes bb p.toNat 0

theorem apr_brigade_partition_ok (bb : apr_bucket_brigade) (p : Nat)
    (h1 : p ≤ (brigade_bytes bb).length) :
    (apr_brigade_partition bb (p : Int)).status = APR_SUCCESS ∧
    (apr_brigade_partition bb (p : Int)).after_point ≤ (apr_brigade_partition bb (p : Int)).bb.length ∧
    brigade_bytes ((apr_brigade_partition bb (p : Int)).bb.take (apr_brigade_partition bb (p : Int)).after_point) =
      (brigade_bytes bb).take p ∧
    (∀ k, (apr_brigade_partition bb (p : Int)).inserted = some k →
      k = (apr_brigade_partition bb (p : Int)).after_point) := by
  unfold apr_brigade_partition
  have hn : ¬ ((p : Int) < 0) := by omega
  simp only [hn, if_false]
  split_ifs with h0
  · have h0i : (p : Int) = 0 := h0
    have : p = 0 := by omega
    subst this
    simp [brigade_bytes]
  · have h0i : ¬ ((p : Int) = 0) := h0
    have hp : 0 < p := by omega
    have := apr_brigade_partition_loop_ok bb p 0 hp h1
    exact ⟨this.1, by simpa using this.2.2.1, by simpa using this.2.2.2.1, this.2.2.2.2⟩

theorem apr_brigade_partition_take (bb : apr_bucket_brigade) (p : Nat) (k : Nat)
    (h : (brigade_bytes (bb.take k)).length ≤ p) (hk : k ≤ bb.length) :
    (apr_brigade_partition bb (p : Int)).bb.take k = bb.take k := by
  unfold apr_brigade_partition
  have hn : ¬ ((p : Int) < 0) := by omega
  simp only [hn, if_false]
  split_ifs with h0
  · rfl
  · have h0i : ¬ ((p : Int) = 0) := h0
    have hp : 0 < p := by omega
    simpa using apr_brigade_partition_loop_take bb p 0 k h hk hp

theorem apr_brigade_partition_neg (bb : apr_bucket_brigade) (p : apr_off_t) (h : p < 0) :
    apr_brigade_partition bb p = ⟨APR_EINVAL, bb, 0, none⟩ := by
  simp [apr_brigade_partition, h]

theorem apr_brigade_partition_incomplete (bb : apr_bucket_brigade) (p : Nat)
    (h : (brigade_bytes bb).length < p) :
    (apr_brigade_partition bb (p : Int)).status = APR_INCOMPLETE ∧
    (apr_brigade_partition bb (p : Int)).bb = bb := by
  unfold apr_brigade_partition
  have hn : ¬ ((p : Int) < 0) := by omega
  have h0 : ¬ ((p : Int) = 0) := by omega
  simp only [hn, h0, if_false]
  have := apr_brigade_partition_loop_incomplete bb p 0 h
  simpa using ⟨this.1, this.2.1⟩

/-! ## The copy loop -/

theorem replay_copy_loop_lt (l : List apr_bucket) (ec e2 : Nat) (b : apr_bucket_brigade)
    (h1 : ec < e2) (h2 : e2 - ec ≤ l.length) :
    replay_copy_loop e2 l ec b = (b ++ l.take (e2 - ec), true) := by
  induction l generalizing ec b with
  | nil => simp at h2; omega
  | cons e rest ih =>
    simp only [List.length_cons] at h2
    unfold replay_copy_loop
    by_cases h3 : ec + 1 = e2
    · have h4 : e2 - ec = 1 := by omega
      simp [h3, h4, apr_bucket_copy]
    · have h4 : e2 - ec = (e2 - (ec + 1)) + 1 := by omega
      simp only [ne_eq, h3, not_false_eq_true, if_true]
      rw [ih (ec + 1) (b ++ [apr_bucket_copy e]) (by omega) (by omega), h4]
      simp [apr_bucket_copy]

theorem replay_copy_loop_ge (l : List apr_bucket) (ec e2 : Nat) (b : apr_bucket_brigade)
    (h1 : e2 ≤ ec) :
    replay_copy_loop e2 l ec b = (b ++ l, false) := by
  induction l generalizing ec b with
  | nil => simp [replay_copy_loop]
  | cons e rest ih =>
    unfold replay_copy_loop
    have h3 : ec + 1 ≠ e2 := by omega
    simp only [ne_eq, h3, not_false_eq_true, if_true]
    rw [ih (ec + 1) (b ++ [apr_bucket_copy e]) (by omega)]
    simp [apr_bucket_copy]

/-! ## The replay filter in its three regimes -/

theorem replay_unsupported_mode {σ : Type} (next : input_filter σ) (ctx : replay_ctx_t)
    (up : σ) (b : apr_bucket_brigade) (mode : ap_input_mode_t) (block : apr_read_type_e)
    (readbytes : apr_off_t)
    (hmode : mode ≠ .AP_MODE_READBYTES ∧ mode ≠ .AP_MODE_GETLINE) :
    mod_dechunk_replay_kept_body next ctx up b mode block readbytes =
      .returned (next up b mode block readbytes).1 (next up b mode block readbytes).2.1 ctx
        (next up b mode block readbytes).2.2 := by
  unfold mod_dechunk_replay_kept_body
  rw [if_pos hmode]

theorem replay_exhausted {σ : Type} (next : input_filter σ) (ctx : replay_ctx_t)
    (up : σ) (b : apr_bucket_brigade) (mode : ap_input_mode_t) (block : apr_read_type_e)
    (readbytes : apr_off_t) (hrem : ctx.remaining ≤ 0) :
    mod_dechunk_replay_kept_body next ctx up b mode block readbytes =
      .returned (next up b mode block readbytes).1 (next up b mode block readbytes).2.1 ctx
        (next up b mode block readbytes).2.2 := by
  unfold mod_dechunk_replay_kept_body
  split_ifs <;> rfl

theorem replay_active_read {σ : Type} (next : input_filter σ) (kept : apr_bucket_brigade)
    (off rem rb : Nat) (up : σ) (b : apr_bucket_brigade) (mode : ap_input_mode_t)
    (block : apr_read_type_e)
    (hmode : mode = .AP_MODE_READBYTES ∨ mode = .AP_MODE_GETLINE)
    (hrem : 0 < rem) (hinv : off + rem = (brigade_bytes kept).length) (hrb : 0 < rb) :
    ∃ out kept1,
      mod_dechunk_replay_kept_body next ⟨kept, off, rem⟩ up b mode block rb =
        .returned APR_SUCCESS (b ++ out)
          ⟨kept1, ((off + min rb rem : Nat) : Int), ((rem - min rb rem : Nat) : Int)⟩ up ∧
      brigade_bytes out = ((brigade_bytes kept).drop off).take (min rb rem) ∧
      brigade_bytes kept1 = brigade_bytes kept := by
  have hm : ¬ (mode ≠ .AP_MODE_READBYTES ∧ mode ≠ .AP_MODE_GETLINE) := by
    rcases hmode with h | h <;> simp [h]
  have hr : ¬ ((rem : Int) ≤ 0) := by omega
  have hclamp : (if (rb : Int) > (rem : Int) then (rem : Int) else (rb : Int)) =
      ((min rb rem : Nat) : Int) := by
    split_ifs with h <;> omega
  obtain ⟨a1, a2, a3, -⟩ := apr_brigade_partition_ok kept off (by omega)
  have a0 := apr_brigade_partition_bytes kept (off : Int)
  have hsum : (off : Int) + ((min rb rem : Nat) : Int) = ((off + min rb rem : Nat) : Int) := by
    push_cast; rfl
  have hle2 : off + min rb rem ≤
      (brigade_bytes (apr_brigade_partition kept (off : Int)).bb).length := by
    rw [a0]; omega
  obtain ⟨c1, c2, c3, c4⟩ :=
    apr_brigade_partition_ok (apr_brigade_partition kept (off : Int)).bb (off + min rb rem) hle2
  have c0 := apr_brigade_partition_bytes (apr_brigade_partition kept (off : Int)).bb
    ((off + min rb rem : Nat) : Int)
  have hlen1 : (brigade_bytes ((apr_brigade_partition kept (off : Int)).bb.take
      (apr_brigade_partition kept (off : Int)).after_point)).length = off := by
    rw [a3, List.length_take]; omega
  have c5 := apr_brigade_partition_take (apr_brigade_partition kept (off : Int)).bb
    (off + min rb rem) (apr_brigade_partition kept (off : Int)).after_point (by omega) a2
  -- abbreviations
  generalize hp1 : apr_brigade_partition kept (off : Int) = p1 at *
  generalize hp2 : apr_brigade_partition p1.bb ((off + min rb rem : Nat) : Int) = p2 at *
  have hlen2 : (brigade_bytes (p2.bb.take p2.after_point)).length = off + min rb rem := by
    rw [c3, List.length_take, a0]; omega
  have hlt : p1.after_point < p2.after_point := by
    by_contra hge
    have := brigade_bytes_take_mono p2.bb (Nat.le_of_not_lt hge)
    rw [hlen2, c5, hlen1] at this
    omega
  have hec : ec_after_partition p1.after_point p2.inserted = p1.after_point := by
    unfold ec_after_partition
    cases hins : p2.inserted with
    | none => rfl
    | some k =>
      have := c4 k hins
      have hk : ¬ k ≤ p1.after_point := by omega
      simp [hk]
  have hloop := replay_copy_loop_lt (p2.bb.drop p1.after_point) p1.after_point p2.after_point b
    hlt (by rw [List.length_drop]; omega)
  refine ⟨(p2.bb.drop p1.after_point).take (p2.after_point - p1.after_point), p2.bb, ?_, ?_, ?_⟩
  · unfold mod_dechunk_replay_kept_body
    simp only [hm, hr, if_false, hclamp, hp1, a1, ne_eq, not_true_eq_false, hsum, hp2, c1, hec,
      hloop, if_true]
    have : (rem : Int) - ((min rb rem : Nat) : Int) = ((rem - min rb rem : Nat) : Int) := by
      omega
    rw [this]
  · have hsplit : p2.bb.take p2.after_point = p2.bb.take p1.after_point ++
        (p2.bb.drop p1.after_point).take (p2.after_point - p1.after_point) := by
      have : p2.after_point = p1.after_point + (p2.after_point - p1.after_point) := by omega
      conv_lhs => rw [this, List.take_add]
    have h1 := c3
    rw [hsplit, brigade_bytes_append, c5, a3, a0, List.take_add] at h1
    exact List.append_cancel_left h1
  · rw [c0, a0]

theorem replay_drain_spec {σ : Type} (next : input_filter σ) (rs : List read_request)
    (hrs : ∀ r ∈ rs, (r.mode = .AP_MODE_READBYTES ∨ r.mode = .AP_MODE_GETLINE) ∧
      0 < r.readbytes) :
    ∀ (kept : apr_bucket_brigade) (off rem : Nat) (up : σ) (b : apr_bucket_brigade),
      off + rem = (brigade_bytes kept).length →
      ∃ out kept1 off1 rem1,
        replay_drain next rs ⟨kept, (off : Int), (rem : Int)⟩ up b =
          .returned APR_SUCCESS (b ++ out) ⟨kept1, ((off1 : Nat) : Int), ((rem1 : Nat) : Int)⟩ up ∧
        off1 + rem1 = (brigade_bytes kept).length ∧
        brigade_bytes kept1 = brigade_bytes kept ∧
        off ≤ off1 ∧
        brigade_bytes out = ((brigade_bytes kept).drop off).take (off1 - off) ∧
        ((rem : Int) ≤ (rs.map (fun r => r.readbytes)).sum → rem1 = 0) := by
  induction rs with
  | nil =>
    intro kept off rem up b hinv
    refine ⟨[], kept, off, rem, ?_, hinv, rfl, le_refl _, ?_, ?_⟩
    · simp [replay_drain]
    · simp [brigade_bytes]
    · intro h
      simp only [List.map_nil, List.sum_nil] at h
      have h2 : (rem : Int) ≤ 0 := h
      omega
  | cons r rs ih =>
    intro kept off rem up b hinv
    have hr := hrs r (List.mem_cons_self _ _)
    have hrs2 : ∀ r ∈ rs, (r.mode = .AP_MODE_READBYTES ∨ r.mode = .AP_MODE_GETLINE) ∧
        0 < r.readbytes := fun x hx => hrs x (List.mem_cons_of_mem _ hx)
    by_cases hz : rem = 0
    · subst hz
      refine ⟨[], kept, off, 0, ?_, hinv, rfl, le_refl _, ?_, ?_⟩
      · simp [replay_drain]
      · simp [brigade_bytes]
      · intro _; rfl
    · have hpos : 0 < rem := Nat.pos_of_ne_zero hz
      obtain ⟨rb, hrb⟩ := Int.eq_ofNat_of_zero_le (le_of_lt hr.2)
      have hrbpos : 0 < rb := by
        have h3 : (0 : Int) < (rb : Int) := by rw [← hrb]; exact hr.2
        exact_mod_cast h3
      obtain ⟨out1, kept1, e1, e2, e3⟩ :=
        replay_active_read next kept off rem rb up b r.mode r.block hr.1 hpos hinv hrbpos
      have hinv1 : (off + min rb rem) + (rem - min rb rem) = (brigade_bytes kept1).length := by
        rw [e3]; omega
      obtain ⟨out2, kept2, off2, rem2, f1, f2, f3, f4, f5, f6⟩ :=
        ih hrs2 kept1 (off + min rb rem) (rem - min rb rem) up (b ++ out1) hinv1
      refine ⟨out1 ++ out2, kept2, off2, rem2, ?_, ?_, ?_, ?_, ?_, ?_⟩
      · have hnr : ¬ ((rem : Int) ≤ 0) := by omega
        unfold replay_drain
        simp only [hnr, if_false, hrb, e1, if_true, f1, List.append_assoc]
      · rw [f2, e3]
      · rw [f3, e3]
      · omega
      · have h1 : off2 - off = min rb rem + (off2 - (off + min rb rem)) := by omega
        rw [brigade_bytes_append, e2, f5, e3, h1, List.take_add, List.drop_drop]
      · intro h
        simp only [List.map_cons, List.sum_cons, hrb] at h
        rw [e3] at f2
        rcases le_total rb rem with hle | hle
        · simp only [min_eq_left hle] at f4 f6
          apply f6
          omega
        · simp only [min_eq_right hle] at f4
          omega

/-! ## The collector -/

theorem kept_copy_bytes (e : apr_bucket) : (kept_copy e).bytes = e.bytes := by
  cases e with
  | data k bytes => cases k <;> rfl
  | eos => rfl
  | flush => rfl

theorem kept_copy_is_eos (e : apr_bucket) :
    APR_BUCKET_IS_EOS (kept_copy e) = APR_BUCKET_IS_EOS e := by
  cases e with
  | data k bytes => cases k <;> rfl
  | eos => rfl
  | flush => rfl

theorem read_complete_body_iter_eq (l : List apr_bucket) (kept_body : apr_bucket_brigade)
    (eos_seen : Bool) :
    read_complete_body_iter l kept_body eos_seen =
      (kept_body ++ l.map kept_copy, eos_seen || l.any APR_BUCKET_IS_EOS) := by
  induction l generalizing kept_body eos_seen with
  | nil => simp [read_complete_body_iter]
  | cons e rest ih =>
    unfold read_complete_body_iter
    simp only [ih, List.map_cons, List.any_cons, List.append_assoc, List.singleton_append]
    cases eos_seen <;> cases h : APR_BUCKET_IS_EOS e <;> simp [kept_copy]

theorem source_rounds_succ {σ : Type} (src : input_filter σ) (n : Nat) (up : σ) :
    source_rounds src (n + 1) up = source_rounds src n up ++
      [((source_read src (source_state src n up)).1,
        (source_read src (source_state src n up)).2.1)] := by
  induction n generalizing up with
  | zero => simp [source_rounds, source_state]
  | succ n ih =>
    rw [source_rounds, ih]
    simp [source_rounds, source_state]

theorem source_state_succ {σ : Type} (src : input_filter σ) (n : Nat) (up : σ) :
    source_state src (n + 1) up = (source_read src (source_state src n up)).2.2 := by
  induction n generalizing up with
  | zero => simp [source_state]
  | succ n ih =>
    rw [source_state, ih]
    simp [source_state]

theorem rounds_buckets_append (a b : List (apr_status_t × apr_bucket_brigade)) :
    rounds_buckets (a ++ b) = rounds_buckets a ++ rounds_buckets b := by
  induction a with
  | nil => rfl
  | cons r rs ih => simp [rounds_buckets, ih]

theorem read_complete_body_loop_rounds {σ : Type} (src : input_filter σ) (n : Nat) :
    ∀ (up : σ) (kept_body : apr_bucket_brigade) (fuel : Nat),
      (∀ r ∈ source_rounds src n up, r.1 = APR_SUCCESS) →
      (∀ r ∈ source_rounds src n up, ∀ e ∈ r.2, APR_BUCKET_IS_EOS e = false) →
      read_complete_body_loop src (n + fuel) up kept_body false =
        read_complete_body_loop src fuel (source_state src n up)
          (kept_body ++ (rounds_buckets (source_rounds src n up)).map kept_copy) false := by
  induction n with
  | zero =>
    intro up kept_body fuel _ _
    simp [source_rounds, source_state, rounds_buckets]
  | succ n ih =>
    intro up kept_body fuel hok hno
    have h1 : (source_read src up).1 = APR_SUCCESS :=
      hok ((source_read src up).1, (source_read src up).2.1) (by simp [source_rounds])
    have h2 : ∀ e ∈ (source_read src up).2.1, APR_BUCKET_IS_EOS e = false :=
      hno ((source_read src up).1, (source_read src up).2.1) (by simp [source_rounds])
    have hok2 : ∀ r ∈ source_rounds src n (source_read src up).2.2, r.1 = APR_SUCCESS :=
      fun r hr => hok r (by simp [source_rounds, hr])
    have hno2 : ∀ r ∈ source_rounds src n (source_read src up).2.2,
        ∀ e ∈ r.2, APR_BUCKET_IS_EOS e = false :=
      fun r hr => hno r (by simp [source_rounds, hr])
    have hany : (source_read src up).2.1.any APR_BUCKET_IS_EOS = false := by
      rw [List.any_eq_false]
      intro e he
      simp [h2 e he]
    have hfuel : n + 1 + fuel = (n + fuel) + 1 := by omega
    rw [hfuel, read_complete_body_loop]
    unfold source_read at h1 hany
    simp only [Bool.false_eq_true, if_false, h1, read_complete_body_iter_eq, hany,
      Bool.or_false]
    have e1 : ¬ (APR_SUCCESS = AP_FILTER_ERROR) := by decide
    have e2 : APR_STATUS_IS_EOF APR_SUCCESS = false := by decide
    simp only [e1, e2, if_false, ne_eq, not_true_eq_false, Bool.false_eq_true]
    have := ih (source_read src up).2.2
      (kept_body ++ (source_read src up).2.1.map kept_copy) fuel hok2 hno2
    unfold source_read at this
    rw [this]
    simp [source_rounds, source_state, rounds_buckets, source_read]

/-! ## The claims about the replay filter -/

/-- C1, round trip. A reader drains the buffered body with bounded-byte or line
reads of positive size, starting from the cursor (offset 0, remaining the total
length) over any store. Every call succeeds, the bytes handed out so far are
the first `offset` bytes of the store, the cursor reaches remaining 0 as soon as
the requested sizes add up to the total length, and once remaining is 0 the
bytes handed out, in call order, are exactly the bytes of the store. -/
theorem replay_round_trip {σ : Type} (next : input_filter σ) (kept : apr_bucket_brigade)
    (up : σ) (rs : List read_request)
    (hrs : ∀ r ∈ rs, (r.mode = .AP_MODE_READBYTES ∨ r.mode = .AP_MODE_GETLINE) ∧
      0 < r.readbytes) :
    ∃ b ctx1,
      replay_drain next rs ⟨kept, 0, apr_brigade_length kept⟩ up [] =
        .returned APR_SUCCESS b ctx1 up ∧
      brigade_bytes b = (brigade_bytes kept).take ctx1.offset.toNat ∧
      (apr_brigade_length kept ≤ (rs.map (fun r => r.readbytes)).sum → ctx1.remaining = 0) ∧
      (ctx1.remaining = 0 → brigade_bytes b = brigade_bytes kept) := by
  obtain ⟨out, kept1, off1, rem1, h1, h2, h3, -, h5, h6⟩ :=
    replay_drain_spec next rs hrs kept 0 (brigade_bytes kept).length up [] (by simp)
  refine ⟨out, ⟨kept1, (off1 : Int), (rem1 : Int)⟩, ?_, ?_, ?_, ?_⟩
  · rw [apr_brigade_length_eq]
    simpa using h1
  · simpa using h5
  · intro h
    rw [apr_brigade_length_eq] at h
    simp [h6 h]
  · intro h
    have hz : rem1 = 0 := by
      have h0 : (rem1 : Int) = 0 := h
      exact_mod_cast h0
    have : off1 = (brigade_bytes kept).length := by omega
    rw [h5, this]
    simp

/-- Witness for C1: the store "abc", end marker, drained by a 2-byte read and a
5-byte line read. -/
theorem replay_round_trip_witness :
    (∀ r ∈ [(⟨.AP_MODE_READBYTES, .APR_BLOCK_READ, 2⟩ : read_request),
        ⟨.AP_MODE_GETLINE, .APR_BLOCK_READ, 5⟩],
      (r.mode = .AP_MODE_READBYTES ∨ r.mode = .AP_MODE_GETLINE) ∧ 0 < r.readbytes) ∧
    ∃ b ctx1,
      replay_drain drained_filter
        [⟨.AP_MODE_READBYTES, .APR_BLOCK_READ, 2⟩, ⟨.AP_MODE_GETLINE, .APR_BLOCK_READ, 5⟩]
        ⟨[.data .heap [97, 98, 99], .eos], 0,
          apr_brigade_length [.data .heap [97, 98, 99], .eos]⟩ () [] =
        .returned APR_SUCCESS b ctx1 () ∧
      brigade_bytes b =
        (brigade_bytes [.data .heap [97, 98, 99], .eos]).take ctx1.offset.toNat ∧
      (apr_brigade_length [.data .heap [97, 98, 99], .eos] ≤
          (([⟨.AP_MODE_READBYTES, .APR_BLOCK_READ, 2⟩,
            ⟨.AP_MODE_GETLINE, .APR_BLOCK_READ, 5⟩] : List read_request).map
            (fun r => r.readbytes)).sum → ctx1.remaining = 0) ∧
      (ctx1.remaining = 0 →
        brigade_bytes b = brigade_bytes [.data .heap [97, 98, 99], .eos]) :=
  ⟨by decide,
   replay_round_trip drained_filter [.data .heap [97, 98, 99], .eos] ()
     [⟨.AP_MODE_READBYTES, .APR_BLOCK_READ, 2⟩, ⟨.AP_MODE_GETLINE, .APR_BLOCK_READ, 5⟩]
     (by decide)⟩

/-! ## The handler -/

theorem mod_dechunk_handler_success {σ : Type} (src : input_filter σ) (fuel : Nat)
    (r : request_rec σ) (tenc : String) (kept : apr_bucket_brigade) (up : σ)
    (hon : r.dechunk_on ≠ 0)
    (hte : apr_table_get r.headers_in "Transfer-Encoding" = some tenc)
    (hch : apr_strnatcasecmp tenc "chunked" = 0)
    (hrd : read_complete_body src fuel r.input_filters [] = some (APR_SUCCESS, kept, up)) :
    mod_dechunk_handler src fuel r = some (DECLINED,
      { r with
        headers_in := apr_table_setn (apr_table_unset r.headers_in "Transfer-Encoding")
          "Content-Length" (apr_off_t_toa (apr_brigade_length kept)),
        input_filters := up,
        replay_filters := ⟨kept, 0, apr_brigade_length kept⟩ :: r.replay_filters }) := by
  have e1 : ¬ (APR_SUCCESS = AP_FILTER_ERROR) := by decide
  unfold mod_dechunk_handler
  simp only [hon, if_false, hte, hch, ne_eq, not_true_eq_false, hrd, e1]

theorem mod_dechunk_handler_filters {σ : Type} (src : input_filter σ) (fuel : Nat)
    (r : request_rec σ) (rv : Int) (r1 : request_rec σ)
    (h : mod_dechunk_handler src fuel r = some (rv, r1)) :
    r1.replay_filters = r.replay_filters ∨
    ∃ kept, r1.replay_filters = ⟨kept, 0, apr_brigade_length kept⟩ :: r.replay_filters := by
  unfold mod_dechunk_handler at h
  split_ifs at h with h1
  · simp only [Option.some.injEq, Prod.mk.injEq] at h
    left; rw [← h.2]
  · split at h
    · simp only [Option.some.injEq, Prod.mk.injEq] at h
      left; rw [← h.2]
    · split_ifs at h with h2
      · simp only [Option.some.injEq, Prod.mk.injEq] at h
        left; rw [← h.2]
      · split at h
        · simp at h
        · split_ifs at h with h3 h4
          · simp only [Option.some.injEq, Prod.mk.injEq] at h
            left; rw [← h.2]
          · simp only [Option.some.injEq, Prod.mk.injEq] at h
            left; rw [← h.2]
          · simp only [Option.some.injEq, Prod.mk.injEq] at h
            right
            rw [← h.2]
            exact ⟨_, rfl⟩

/-! ## The claims about the cursor -/

/-- A call that returns keeps the cursor invariant: from a context with
offset + remaining equal to the byte length of kept_body, whatever the mode,
block type and maxBytes, the context handed back at a return (success, failure
or passthrough) has offset + remaining equal to the byte length of its
kept_body. -/
theorem replay_returned_keeps_invariant {σ : Type} (next : input_filter σ)
    (ctx : replay_ctx_t) (up : σ) (b : apr_bucket_brigade) (mode : ap_input_mode_t)
    (block : apr_read_type_e) (readbytes : apr_off_t)
    (hinv : ctx.offset + ctx.remaining = apr_brigade_length ctx.kept_body)
    (s : apr_status_t) (b1 : apr_bucket_brigade) (ctx1 : replay_ctx_t) (up1 : σ)
    (h : mod_dechunk_replay_kept_body next ctx up b mode block readbytes =
      .returned s b1 ctx1 up1) :
    ctx1.offset + ctx1.remaining = apr_brigade_length ctx1.kept_body := by
  have key :
      (mod_dechunk_replay_kept_body next ctx up b mode block readbytes).ctx.offset +
        (mod_dechunk_replay_kept_body next ctx up b mode block readbytes).ctx.remaining =
      apr_brigade_length
        (mod_dechunk_replay_kept_body next ctx up b mode block readbytes).ctx.kept_body := by
    unfold mod_dechunk_replay_kept_body
    simp only [apr_brigade_length_eq] at hinv ⊢
    split_ifs <;> simp only [replay_outcome.ctx, apr_brigade_partition_bytes] <;>
      first | exact hinv | linarith
  rw [h] at key
  exact key

/-- A call with maxBytes > 0 returns: from a context with offset + remaining
equal to the byte length of kept_body, whatever the mode and block type, a
call with maxBytes > 0 ends in a return. -/
theorem replay_returns_of_pos {σ : Type} (next : input_filter σ) (ctx : replay_ctx_t)
    (up : σ) (b : apr_bucket_brigade) (mode : ap_input_mode_t) (block : apr_read_type_e)
    (readbytes : apr_off_t)
    (hinv : ctx.offset + ctx.remaining = apr_brigade_length ctx.kept_body)
    (hrb : 0 < readbytes) :
    ∃ s b1 ctx1 up1,
      mod_dechunk_replay_kept_body next ctx up b mode block readbytes =
        .returned s b1 ctx1 up1 := by
  by_cases hm : mode ≠ .AP_MODE_READBYTES ∧ mode ≠ .AP_MODE_GETLINE
  · exact ⟨_, _, _, _, replay_unsupported_mode next ctx up b mode block readbytes hm⟩
  · by_cases hr : ctx.remaining ≤ 0
    · exact ⟨_, _, _, _, replay_exhausted next ctx up b mode block readbytes hr⟩
    · have hmode : mode = .AP_MODE_READBYTES ∨ mode = .AP_MODE_GETLINE := by
        by_contra hc
        exact hm ⟨fun e => hc (Or.inl e), fun e => hc (Or.inr e)⟩
      by_cases hoff : ctx.offset < 0
      · refine ⟨APR_EINVAL, b, ctx, up, ?_⟩
        have hne : ¬ (APR_EINVAL = APR_SUCCESS) := by decide
        unfold mod_dechunk_replay_kept_body
        simp only [hm, hr, if_false, apr_brigade_partition_neg ctx.kept_body ctx.offset hoff,
          ne_eq, hne, not_false_eq_true, if_true]
      · obtain ⟨kept, offset, remaining⟩ := ctx
        simp only at hinv hr hoff
        rw [apr_brigade_length_eq] at hinv
        obtain ⟨off, rfl⟩ := Int.eq_ofNat_of_zero_le (not_lt.mp hoff)
        obtain ⟨rem, rfl⟩ := Int.eq_ofNat_of_zero_le (le_of_lt (not_le.mp hr))
        obtain ⟨rb, rfl⟩ := Int.eq_ofNat_of_zero_le (le_of_lt hrb)
        have hrem1 : 0 < rem := by
          have : ¬ ((rem : Int) ≤ 0) := hr
          omega
        have hrb1 : 0 < rb := by exact_mod_cast hrb
        have hinv1 : off + rem = (brigade_bytes kept).length := by exact_mod_cast hinv
        obtain ⟨out, kept1, e1, -, -⟩ :=
          replay_active_read next kept off rem rb up b mode block hmode hrem1 hinv1 hrb1
        exact ⟨_, _, _, _, e1⟩

/-- The context the handler installs has offset 0 and remaining the byte length
of its kept_body, so offset + remaining is that length. -/
theorem mod_dechunk_handler_context {σ : Type} (src : input_filter σ) (fuel : Nat)
    (r : request_rec σ) (rv : Int) (r1 : request_rec σ)
    (h : mod_dechunk_handler src fuel r = some (rv, r1)) :
    r1.replay_filters = r.replay_filters ∨
    ∃ c, r1.replay_filters = c :: r.replay_filters ∧ c.offset = 0 ∧
      c.offset + c.remaining = apr_brigade_length c.kept_body := by
  rcases mod_dechunk_handler_filters src fuel r rv r1 h with h1 | ⟨kept, h1⟩
  · exact Or.inl h1
  · exact Or.inr ⟨_, h1, rfl, by simp⟩

/-- C2, cursor invariant, evaluated at a line read with maxBytes 0 on the
sample cursor (offset 2, remaining 3 over a 5-byte store, so offset + remaining
is the byte length of kept_body and maxBytes ≥ 0). The call does not leave a
cursor at all: both partition points are the bucket at byte 2, the do-while
loop copies the rest of the ring into the caller's brigade and reaches the
sentinel, so the call ends in no return, whatever status, brigade and context
one names. -/
theorem zero_length_read_never_returns :
    sample_ctx.offset + sample_ctx.remaining = apr_brigade_length sample_ctx.kept_body ∧
    (0 : apr_off_t) ≤ 0 ∧
    mod_dechunk_replay_kept_body drained_filter sample_ctx () []
        .AP_MODE_GETLINE .APR_BLOCK_READ 0 =
      .undefined [.data .heap [3, 4, 5], .eos]
        { kept_body := [.data .heap [1, 2], .data .heap [3, 4, 5], .eos], offset := 2,
          remaining := 3 } () ∧
    ∀ (s : apr_status_t) (b1 : apr_bucket_brigade) (ctx1 : replay_ctx_t) (up1 : Unit),
      mod_dechunk_replay_kept_body drained_filter sample_ctx () []
        .AP_MODE_GETLINE .APR_BLOCK_READ 0 ≠ .returned s b1 ctx1 up1 := by
  have h : mod_dechunk_replay_kept_body drained_filter sample_ctx () []
      .AP_MODE_GETLINE .APR_BLOCK_READ 0 =
      .undefined [.data .heap [3, 4, 5], .eos]
        { kept_body := [.data .heap [1, 2], .data .heap [3, 4, 5], .eos], offset := 2,
          remaining := 3 } () := by
    decide
  refine ⟨by decide, le_refl _, h, ?_⟩
  intro s b1 ctx1 up1
  rw [h]
  exact fun e => replay_outcome.noConfusion e

/-- C3, active read. With remaining > 0, offset ≥ 0, the invariant, a
bounded-byte or line read and maxBytes > 0, the call returns APR_SUCCESS; with
n = min(maxBytes, remaining), the segments appended to the caller's brigade
carry exactly the n store bytes from offset on, offset grows by n and remaining
shrinks by n. The bytes of the store are left as they were. -/
theorem active_read_postcondition {σ : Type} (next : input_filter σ) (ctx : replay_ctx_t)
    (up : σ) (b : apr_bucket_brigade) (mode : ap_input_mode_t) (block : apr_read_type_e)
    (readbytes : apr_off_t)
    (hmode : mode = .AP_MODE_READBYTES ∨ mode = .AP_MODE_GETLINE)
    (hoff : 0 ≤ ctx.offset) (hrem : 0 < ctx.remaining)
    (hinv : ctx.offset + ctx.remaining = apr_brigade_length ctx.kept_body)
    (hrb : 0 < readbytes) :
    ∃ out kept1,
      mod_dechunk_replay_kept_body next ctx up b mode block readbytes =
        .returned APR_SUCCESS (b ++ out)
          ⟨kept1, ctx.offset + min readbytes ctx.remaining,
            ctx.remaining - min readbytes ctx.remaining⟩ up ∧
      brigade_bytes out = ((brigade_bytes ctx.kept_body).drop ctx.offset.toNat).take
        (min readbytes ctx.remaining).toNat ∧
      ((brigade_bytes out).length : Int) = min readbytes ctx.remaining ∧
      brigade_bytes kept1 = brigade_bytes ctx.kept_body := by
  obtain ⟨kept, offset, remaining⟩ := ctx
  simp only at hoff hrem hinv ⊢
  rw [apr_brigade_length_eq] at hinv
  obtain ⟨off, rfl⟩ := Int.eq_ofNat_of_zero_le hoff
  obtain ⟨rem, rfl⟩ := Int.eq_ofNat_of_zero_le (le_of_lt hrem)
  obtain ⟨rb, rfl⟩ := Int.eq_ofNat_of_zero_le (le_of_lt hrb)
  have hrem1 : 0 < rem := by exact_mod_cast hrem
  have hrb1 : 0 < rb := by exact_mod_cast hrb
  have hinv1 : off + rem = (brigade_bytes kept).length := by exact_mod_cast hinv
  obtain ⟨out, kept1, e1, e2, e3⟩ :=
    replay_active_read next kept off rem rb up b mode block hmode hrem1 hinv1 hrb1
  have hmin : min ((rb : Nat) : Int) ((rem : Nat) : Int) = ((min rb rem : Nat) : Int) := by
    simp
  have hsub : ((rem : Nat) : Int) - ((min rb rem : Nat) : Int) =
      ((rem - min rb rem : Nat) : Int) := by
    omega
  refine ⟨out, kept1, ?_, ?_, ?_, e3⟩
  · simp only [Int.ofNat_eq_coe, hmin, hsub]
    rw [e1]
    simp
  · simp only [Int.ofNat_eq_coe, hmin, Int.toNat_ofNat]
    exact e2
  · simp only [Int.ofNat_eq_coe, hmin, e2, List.length_take, List.length_drop]
    omega

/-- Witness for C3: remaining 3 and maxBytes 10 on the sample cursor. -/
theorem active_read_postcondition_witness :
    ((ap_input_mode_t.AP_MODE_READBYTES = .AP_MODE_READBYTES ∨
        ap_input_mode_t.AP_MODE_READBYTES = .AP_MODE_GETLINE) ∧
      0 ≤ sample_ctx.offset ∧ 0 < sample_ctx.remaining ∧
      sample_ctx.offset + sample_ctx.remaining = apr_brigade_length sample_ctx.kept_body ∧
      (0 : Int) < 10) ∧
    ∃ out kept1,
      mod_dechunk_replay_kept_body drained_filter sample_ctx () []
          .AP_MODE_READBYTES .APR_BLOCK_READ 10 =
        .returned APR_SUCCESS ([] ++ out)
          ⟨kept1, sample_ctx.offset + min 10 sample_ctx.remaining,
            sample_ctx.remaining - min 10 sample_ctx.remaining⟩ () ∧
      brigade_bytes out = ((brigade_bytes sample_ctx.kept_body).drop
        sample_ctx.offset.toNat).take (min 10 sample_ctx.remaining).toNat ∧
      ((brigade_bytes out).length : Int) = min 10 sample_ctx.remaining ∧
      brigade_bytes kept1 = brigade_bytes sample_ctx.kept_body :=
  ⟨by decide,
   active_read_postcondition drained_filter sample_ctx () [] .AP_MODE_READBYTES
     .APR_BLOCK_READ 10 (by decide) (by decide) (by decide) (by decide) (by decide)⟩

theorem apr_brigade_partition_loop_at_boundary (l : List apr_bucket) (q idx k : Nat)
    (hq : 0 < q) (hk : k ≤ l.length) (h : (brigade_bytes (l.take k)).length = q) :
    (apr_brigade_partition_loop l q idx).status = APR_SUCCESS ∧
    (apr_brigade_partition_loop l q idx).bb = l ∧
    (apr_brigade_partition_loop l q idx).inserted = none ∧
    (apr_brigade_partition_loop l q idx).after_point ≤ idx + k := by
  induction l generalizing q idx k with
  | nil => simp [brigade_bytes] at h; omega
  | cons e rest ih =>
    cases k with
    | zero => simp [brigade_bytes] at h; omega
    | succ k =>
      simp only [List.take_succ_cons, brigade_bytes, List.length_append] at h
      simp only [List.length_cons] at hk
      have h1 : ¬ q < e.length := by rw [bucket_length_eq]; omega
      unfold apr_brigade_partition_loop
      simp only [h1, if_false]
      split_ifs with h2
      · exact ⟨rfl, rfl, rfl, by dsimp only; omega⟩
      · have hq2 : 0 < q - e.length := by omega
        have h3 : (brigade_bytes (rest.take k)).length = q - e.length := by
          rw [bucket_length_eq]; omega
        obtain ⟨i1, i2, i3, i4⟩ := ih (q - e.length) (idx + 1) k hq2 (by omega) h3
        dsimp only
        exact ⟨i1, by rw [i2], i3, by omega⟩

theorem apr_brigade_partition_at_boundary (bb : apr_bucket_brigade) (p k : Nat)
    (hk : k ≤ bb.length) (h : (brigade_bytes (bb.take k)).length = p) :
    (apr_brigade_partition bb (p : Int)).status = APR_SUCCESS ∧
    (apr_brigade_partition bb (p : Int)).bb = bb ∧
    (apr_brigade_partition bb (p : Int)).inserted = none ∧
    (apr_brigade_partition bb (p : Int)).after_point ≤ k := by
  unfold apr_brigade_partition
  have hn : ¬ ((p : Int) < 0) := by omega
  simp only [hn, if_false]
  split_ifs with h0
  · exact ⟨rfl, rfl, rfl, Nat.zero_le _⟩
  · have h0i : ¬ ((p : Int) = 0) := h0
    have hp : 0 < p := by omega
    have := apr_brigade_partition_loop_at_boundary bb p 0 k hp hk h
    simpa using this

/-- A zero-length read in the active state: the two partition points coincide,
the do-while loop copies every bucket from there to the end of the ring and
arrives at the sentinel. The caller's brigade has grown by at least one
bucket and the cursor has not been written. -/
theorem replay_zero_length_read {σ : Type} (next : input_filter σ)
    (kept : apr_bucket_brigade) (off rem : Nat) (up : σ) (b : apr_bucket_brigade)
    (mode : ap_input_mode_t) (block : apr_read_type_e)
    (hmode : mode = .AP_MODE_READBYTES ∨ mode = .AP_MODE_GETLINE)
    (hrem : 0 < rem) (hinv : off + rem = (brigade_bytes kept).length) :
    ∃ out kept1,
      mod_dechunk_replay_kept_body next ⟨kept, off, rem⟩ up b mode block 0 =
        .undefined (b ++ out) ⟨kept1, off, rem⟩ up ∧
      out ≠ [] ∧ brigade_bytes kept1 = brigade_bytes kept := by
  have hm : ¬ (mode ≠ .AP_MODE_READBYTES ∧ mode ≠ .AP_MODE_GETLINE) := by
    rcases hmode with h | h <;> simp [h]
  have hr : ¬ ((rem : Int) ≤ 0) := by omega
  have hclamp : ¬ ((0 : Int) > (rem : Int)) := by omega
  obtain ⟨a1, a2, a3, -⟩ := apr_brigade_partition_ok kept off (by omega)
  have a0 := apr_brigade_partition_bytes kept (off : Int)
  have hlen1 : (brigade_bytes ((apr_brigade_partition kept (off : Int)).bb.take
      (apr_brigade_partition kept (off : Int)).after_point)).length = off := by
    rw [a3, List.length_take]; omega
  obtain ⟨c1, c2, c3, c4⟩ := apr_brigade_partition_at_boundary
    (apr_brigade_partition kept (off : Int)).bb off
    (apr_brigade_partition kept (off : Int)).after_point a2 hlen1
  generalize hp1 : apr_brigade_partition kept (off : Int) = p1 at *
  have hlt : p1.after_point < p1.bb.length := by
    by_contra hge
    rw [List.take_of_length_le (Nat.le_of_not_lt hge), a0] at hlen1
    omega
  have hloop := replay_copy_loop_ge (p1.bb.drop p1.after_point) p1.after_point
    (apr_brigade_partition p1.bb (off : Int)).after_point b c4
  refine ⟨p1.bb.drop p1.after_point, p1.bb, ?_, ?_, a0⟩
  · unfold mod_dechunk_replay_kept_body
    simp only [hm, hr, hclamp, if_false, hp1, a1, ne_eq, not_true_eq_false, add_zero, c1, c2,
      c3, ec_after_partition, hloop, Bool.false_eq_true]
  · intro h
    have := congrArg List.length h
    simp only [List.length_drop, List.length_nil] at this
    omega

/-- C4, zero-length read, evaluated at a line read with maxBytes 0 on the store
"Hello", end marker with offset 0 and remaining 5: the call does not return
success with an empty output. Both partition points are the first bucket, the
do-while loop copies "Hello" and the end marker into the caller's brigade and
then reaches the sentinel, where the behaviour of the C code is undefined. -/
theorem zero_length_read_runs_into_sentinel :
    mod_dechunk_replay_kept_body drained_filter
        ⟨[.data .heap [72, 101, 108, 108, 111], .eos], 0, 5⟩ () []
        .AP_MODE_GETLINE .APR_BLOCK_READ 0 =
      .undefined [.data .heap [72, 101, 108, 108, 111], .eos]
        ⟨[.data .heap [72, 101, 108, 108, 111], .eos], 0, 5⟩ () := by
  decide

/-- C5, idempotent exhaustion. With remaining = 0 a call, whatever its mode,
block type and maxBytes, returns exactly the status and brigade of the next
filter for the same arguments and hands back the context as it was (kept_body
not partitioned, offset and remaining unchanged). Hence along any further
sequence of reads every call returns and leaves that same context. -/
theorem idempotent_exhaustion {σ : Type} (next : input_filter σ) (ctx : replay_ctx_t)
    (hrem : ctx.remaining = 0) :
    (∀ (up : σ) (b : apr_bucket_brigade) (mode : ap_input_mode_t) (block : apr_read_type_e)
        (readbytes : apr_off_t),
      mod_dechunk_replay_kept_body next ctx up b mode block readbytes =
        .returned (next up b mode block readbytes).1 (next up b mode block readbytes).2.1 ctx
          (next up b mode block readbytes).2.2) ∧
    (∀ (rs : List read_request) (up : σ),
      (replay_reads next rs ctx up).length = rs.length ∧
      ∀ o ∈ replay_reads next rs ctx up, ∃ s b1 up1, o = .returned s b1 ctx up1) := by
  have hle : ctx.remaining ≤ 0 := le_of_eq hrem
  refine ⟨fun up b mode block readbytes =>
    replay_exhausted next ctx up b mode block readbytes hle, ?_⟩
  intro rs
  induction rs with
  | nil => intro up; simp [replay_reads]
  | cons r rs ih =>
    intro up
    unfold replay_reads
    rw [replay_exhausted next ctx up [] r.mode r.block r.readbytes hle]
    obtain ⟨i1, i2⟩ := ih (next up [] r.mode r.block r.readbytes).2.2
    refine ⟨by simp [i1], ?_⟩
    intro o ho
    rcases List.mem_cons.mp ho with h | h
    · exact ⟨_, _, _, h⟩
    · exact i2 o h

/-- Witness for C5: the exhausted sample cursor in front of a drained filter. -/
theorem idempotent_exhaustion_witness :
    sample_ctx_done.remaining = 0 ∧
    ((∀ (up : Unit) (b : apr_bucket_brigade) (mode : ap_input_mode_t)
        (block : apr_read_type_e) (readbytes : apr_off_t),
      mod_dechunk_replay_kept_body drained_filter sample_ctx_done up b mode block readbytes =
        .returned (drained_filter up b mode block readbytes).1
          (drained_filter up b mode block readbytes).2.1 sample_ctx_done
          (drained_filter up b mode block readbytes).2.2) ∧
    (∀ (rs : List read_request) (up : Unit),
      (replay_reads drained_filter rs sample_ctx_done up).length = rs.length ∧
      ∀ o ∈ replay_reads drained_filter rs sample_ctx_done up,
        ∃ s b1 up1, o = .returned s b1 sample_ctx_done up1)) :=
  ⟨by decide, idempotent_exhaustion drained_filter sample_ctx_done (by decide)⟩

/-- C6, unsupported mode. For a mode other than AP_MODE_READBYTES and
AP_MODE_GETLINE, in every cursor state, the call returns exactly the status and
brigade of the next filter for the unchanged arguments (so no status of its
own) and hands back the context as it was: offset, remaining and kept_body
unchanged. -/
theorem unsupported_mode_passthrough {σ : Type} (next : input_filter σ) (ctx : replay_ctx_t)
    (up : σ) (b : apr_bucket_brigade) (mode : ap_input_mode_t) (block : apr_read_type_e)
    (readbytes : apr_off_t)
    (hmode : mode ≠ .AP_MODE_READBYTES ∧ mode ≠ .AP_MODE_GETLINE) :
    mod_dechunk_replay_kept_body next ctx up b mode block readbytes =
      .returned (next up b mode block readbytes).1 (next up b mode block readbytes).2.1 ctx
        (next up b mode block readbytes).2.2 :=
  replay_unsupported_mode next ctx up b mode block readbytes hmode

/-- Witness for C6: a speculative read on the sample cursor, which still has 3
bytes to deliver, in front of the sample script. -/
theorem unsupported_mode_passthrough_witness :
    (ap_input_mode_t.AP_MODE_SPECULATIVE ≠ .AP_MODE_READBYTES ∧
      ap_input_mode_t.AP_MODE_SPECULATIVE ≠ .AP_MODE_GETLINE) ∧
    mod_dechunk_replay_kept_body scripted_source sample_ctx sample_script []
        .AP_MODE_SPECULATIVE .APR_NONBLOCK_READ 4 =
      .returned
        (scripted_source sample_script [] .AP_MODE_SPECULATIVE .APR_NONBLOCK_READ 4).1
        (scripted_source sample_script [] .AP_MODE_SPECULATIVE .APR_NONBLOCK_READ 4).2.1
        sample_ctx
        (scripted_source sample_script [] .AP_MODE_SPECULATIVE .APR_NONBLOCK_READ 4).2.2 :=
  ⟨by decide,
   unsupported_mode_passthrough scripted_source sample_ctx sample_script []
     .AP_MODE_SPECULATIVE .APR_NONBLOCK_READ 4 (by decide)⟩

/-! ## The claims about the collector and the computed length -/

/-- C7, collected store on the end marker. If the first n + 1 reads of the
source all succeed and round n + 1 is the first that contains the end marker,
then (with fuel for n + 2 loop tests) read_complete_body returns APR_SUCCESS,
the source has been read exactly n + 1 times, and kept_body has grown by the
retained copy of every bucket of rounds 1 .. n + 1, in order, the end marker and
whatever follows it in its round included. A retained copy has the bytes of its
original and is the end marker exactly when the original is. -/
theorem collected_store_on_end_marker {σ : Type} (src : input_filter σ) (up : σ)
    (kept_body : apr_bucket_brigade) (n fuel : Nat)
    (hok : ∀ r ∈ source_rounds src (n + 1) up, r.1 = APR_SUCCESS)
    (hno : ∀ r ∈ source_rounds src n up, ∀ e ∈ r.2, APR_BUCKET_IS_EOS e = false)
    (heos : ∃ e ∈ (source_read src (source_state src n up)).2.1, APR_BUCKET_IS_EOS e = true)
    (hfuel : n + 2 ≤ fuel) :
    read_complete_body src fuel up kept_body =
      some (APR_SUCCESS,
        kept_body ++ (rounds_buckets (source_rounds src (n + 1) up)).map kept_copy,
        source_state src (n + 1) up) ∧
    (∀ e, (kept_copy e).bytes = e.bytes ∧
      APR_BUCKET_IS_EOS (kept_copy e) = APR_BUCKET_IS_EOS e) := by
  refine ⟨?_, fun e => ⟨kept_copy_bytes e, kept_copy_is_eos e⟩⟩
  obtain ⟨f, rfl⟩ : ∃ f, fuel = n + (f + 2) := ⟨fuel - (n + 2), by omega⟩
  have hok1 : ∀ r ∈ source_rounds src n up, r.1 = APR_SUCCESS := by
    intro r hr
    apply hok r
    rw [source_rounds_succ]
    exact List.mem_append_left _ hr
  have hlast : (source_read src (source_state src n up)).1 = APR_SUCCESS := by
    apply hok ((source_read src (source_state src n up)).1,
      (source_read src (source_state src n up)).2.1)
    rw [source_rounds_succ]
    simp
  have hany : (source_read src (source_state src n up)).2.1.any APR_BUCKET_IS_EOS = true := by
    rw [List.any_eq_true]
    exact heos
  have e1 : ¬ (APR_SUCCESS = AP_FILTER_ERROR) := by decide
  have e2 : APR_STATUS_IS_EOF APR_SUCCESS = false := by decide
  unfold read_complete_body
  rw [read_complete_body_loop_rounds src n up kept_body (f + 2) hok1 hno]
  rw [read_complete_body_loop, source_rounds_succ, source_state_succ, rounds_buckets_append]
  unfold source_read at hlast hany
  simp only [Bool.false_eq_true, if_false, hlast, e1, e2, ne_eq, not_true_eq_false,
    read_complete_body_iter_eq, hany, Bool.or_true]
  rw [read_complete_body_loop]
  simp only [if_true, rounds_buckets, List.map_append, List.append_nil, List.append_assoc,
    source_read]

/-- Witness for C7: the sample script, whose second round holds the end marker. -/
theorem collected_store_on_end_marker_witness :
    ((∀ r ∈ source_rounds scripted_source (1 + 1) sample_script, r.1 = APR_SUCCESS) ∧
      (∀ r ∈ source_rounds scripted_source 1 sample_script,
        ∀ e ∈ r.2, APR_BUCKET_IS_EOS e = false) ∧
      (∃ e ∈ (source_read scripted_source
          (source_state scripted_source 1 sample_script)).2.1, APR_BUCKET_IS_EOS e = true) ∧
      1 + 2 ≤ 3) ∧
    (read_complete_body scripted_source 3 sample_script [] =
      some (APR_SUCCESS,
        [] ++ (rounds_buckets (source_rounds scripted_source (1 + 1) sample_script)).map
          kept_copy,
        source_state scripted_source (1 + 1) sample_script) ∧
    (∀ e, (kept_copy e).bytes = e.bytes ∧
      APR_BUCKET_IS_EOS (kept_copy e) = APR_BUCKET_IS_EOS e)) :=
  ⟨by decide,
   collected_store_on_end_marker scripted_source sample_script [] 1 3
     (by decide) (by decide) (by decide) (by decide)⟩

/-- C8, collector errors. If the first n reads succeed without an end marker
and read n + 1 gives a status that is neither success nor end of file, then
(with fuel for n + 1 loop tests) read_complete_body returns that very status,
AP_FILTER_ERROR included, right after that read: the source has been read
exactly n + 1 times, and kept_body holds what the earlier rounds put there. -/
theorem collector_error_propagated {σ : Type} (src : input_filter σ) (up : σ)
    (kept_body : apr_bucket_brigade) (n fuel : Nat)
    (hok : ∀ r ∈ source_rounds src n up, r.1 = APR_SUCCESS)
    (hno : ∀ r ∈ source_rounds src n up, ∀ e ∈ r.2, APR_BUCKET_IS_EOS e = false)
    (hne : (source_read src (source_state src n up)).1 ≠ APR_SUCCESS)
    (hneof : (source_read src (source_state src n up)).1 ≠ APR_EOF)
    (hfuel : n + 1 ≤ fuel) :
    read_complete_body src fuel up kept_body =
      some ((source_read src (source_state src n up)).1,
        kept_body ++ (rounds_buckets (source_rounds src n up)).map kept_copy,
        source_state src (n + 1) up) := by
  obtain ⟨f, rfl⟩ : ∃ f, fuel = n + (f + 1) := ⟨fuel - (n + 1), by omega⟩
  unfold read_complete_body
  rw [read_complete_body_loop_rounds src n up kept_body (f + 1) hok hno]
  rw [read_complete_body_loop]
  have e2 : APR_STATUS_IS_EOF (source_read src (source_state src n up)).1 = false := by
    simp [APR_STATUS_IS_EOF, hneof]
  unfold source_read at hne hneof e2
  simp only [Bool.false_eq_true, if_false, e2, ne_eq, hne, not_false_eq_true, if_true,
    source_state_succ, source_read]
  split_ifs with h
  · rw [← h]
  · rfl

/-- Witness for C8: the script whose second read reports AP_FILTER_ERROR. -/
theorem collector_error_propagated_witness :
    ((∀ r ∈ source_rounds scripted_source 1 sample_script_fatal, r.1 = APR_SUCCESS) ∧
      (∀ r ∈ source_rounds scripted_source 1 sample_script_fatal,
        ∀ e ∈ r.2, APR_BUCKET_IS_EOS e = false) ∧
      (source_read scripted_source
        (source_state scripted_source 1 sample_script_fatal)).1 ≠ APR_SUCCESS ∧
      (source_read scripted_source
        (source_state scripted_source 1 sample_script_fatal)).1 ≠ APR_EOF ∧
      1 + 1 ≤ 2) ∧
    read_complete_body scripted_source 2 sample_script_fatal [] =
      some ((source_read scripted_source
          (source_state scripted_source 1 sample_script_fatal)).1,
        [] ++ (rounds_buckets (source_rounds scripted_source 1 sample_script_fatal)).map
          kept_copy,
        source_state scripted_source (1 + 1) sample_script_fatal) :=
  ⟨by decide,
   collector_error_propagated scripted_source sample_script_fatal [] 1 2
     (by decide) (by decide) (by decide) (by decide) (by decide)⟩

/-- C9, clean end of input. If the first n reads succeed without an end marker
and read n + 1 reports end of file, then (with fuel for n + 1 loop tests)
read_complete_body returns APR_SUCCESS and kept_body holds exactly what it held
plus the retained copies of the buckets of rounds 1 .. n, in order: nothing is
dropped and nothing of round n + 1 is added. -/
theorem clean_end_of_input {σ : Type} (src : input_filter σ) (up : σ)
    (kept_body : apr_bucket_brigade) (n fuel : Nat)
    (hok : ∀ r ∈ source_rounds src n up, r.1 = APR_SUCCESS)
    (hno : ∀ r ∈ source_rounds src n up, ∀ e ∈ r.2, APR_BUCKET_IS_EOS e = false)
    (heof : (source_read src (source_state src n up)).1 = APR_EOF)
    (hfuel : n + 1 ≤ fuel) :
    read_complete_body src fuel up kept_body =
      some (APR_SUCCESS,
        kept_body ++ (rounds_buckets (source_rounds src n up)).map kept_copy,
        source_state src (n + 1) up) := by
  obtain ⟨f, rfl⟩ : ∃ f, fuel = n + (f + 1) := ⟨fuel - (n + 1), by omega⟩
  unfold read_complete_body
  rw [read_complete_body_loop_rounds src n up kept_body (f + 1) hok hno]
  rw [read_complete_body_loop]
  have e1 : ¬ (APR_EOF = AP_FILTER_ERROR) := by decide
  have e2 : APR_STATUS_IS_EOF APR_EOF = true := by decide
  unfold source_read at heof
  simp only [Bool.false_eq_true, if_false, heof, e1, e2, if_true, source_state_succ,
    source_read]

/-- Witness for C9: the script whose second read reports end of file. -/
theorem clean_end_of_input_witness :
    ((∀ r ∈ source_rounds scripted_source 1 sample_script_eof, r.1 = APR_SUCCESS) ∧
      (∀ r ∈ source_rounds scripted_source 1 sample_script_eof,
        ∀ e ∈ r.2, APR_BUCKET_IS_EOS e = false) ∧
      (source_read scripted_source
        (source_state scripted_source 1 sample_script_eof)).1 = APR_EOF ∧
      1 + 1 ≤ 2) ∧
    read_complete_body scripted_source 2 sample_script_eof [] =
      some (APR_SUCCESS,
        [] ++ (rounds_buckets (source_rounds scripted_source 1 sample_script_eof)).map
          kept_copy,
        source_state scripted_source (1 + 1) sample_script_eof) :=
  ⟨by decide,
   clean_end_of_input scripted_source sample_script_eof [] 1 2
     (by decide) (by decide) (by decide) (by decide)⟩

theorem data_length_sum_eq (bb : apr_bucket_brigade) :
    data_length_sum bb = (brigade_bytes bb).length := by
  induction bb with
  | nil => rfl
  | cons e rest ih =>
    cases e <;> simp [data_length_sum, brigade_bytes, apr_bucket.bytes, ih]

/-- C10, length correctness. When the module is on, the request is chunked and
the collection succeeds with the store kept, the length apr_brigade_length
computes is the sum of the byte lengths of the data segments of kept (the end
marker counts 0); the handler returns DECLINED, the Content-Length it writes is
that number in decimal, and the replay context it installs has the store kept,
offset 0 and remaining that length. -/
theorem length_correctness {σ : Type} (src : input_filter σ) (fuel : Nat)
    (r : request_rec σ) (tenc : String) (kept : apr_bucket_brigade) (up : σ)
    (hon : r.dechunk_on ≠ 0)
    (hte : apr_table_get r.headers_in "Transfer-Encoding" = some tenc)
    (hch : apr_strnatcasecmp tenc "chunked" = 0)
    (hrd : read_complete_body src fuel r.input_filters [] = some (APR_SUCCESS, kept, up)) :
    apr_brigade_length kept = (data_length_sum kept : Int) ∧
    ∃ r1, mod_dechunk_handler src fuel r = some (DECLINED, r1) ∧
      r1.headers_in = apr_table_setn (apr_table_unset r.headers_in "Transfer-Encoding")
        "Content-Length" (apr_off_t_toa (data_length_sum kept : Int)) ∧
      r1.replay_filters =
        { kept_body := kept, offset := 0, remaining := (data_length_sum kept : Int) } ::
          r.replay_filters := by
  have hlen : apr_brigade_length kept = (data_length_sum kept : Int) := by
    rw [apr_brigade_length_eq, data_length_sum_eq]
  refine ⟨hlen, _, mod_dechunk_handler_success src fuel r tenc kept up hon hte hch hrd, ?_, ?_⟩
  · simp only [hlen]
  · simp only [hlen]

/-- Witness for C10: the sample request, whose body is collected as the
segments [1, 2], [3] and the end marker. -/
theorem length_correctness_witness :
    (sample_request.dechunk_on ≠ 0 ∧
      apr_table_get sample_request.headers_in "Transfer-Encoding" = some "chunked" ∧
      apr_strnatcasecmp "chunked" "chunked" = 0 ∧
      read_complete_body scripted_source 3 sample_request.input_filters [] =
        some (APR_SUCCESS, [.data .heap [1, 2], .data .heap [3], .eos], [])) ∧
    (apr_brigade_length [.data .heap [1, 2], .data .heap [3], .eos] =
        (data_length_sum [.data .heap [1, 2], .data .heap [3], .eos] : Int) ∧
    ∃ r1, mod_dechunk_handler scripted_source 3 sample_request = some (DECLINED, r1) ∧
      r1.headers_in =
        apr_table_setn (apr_table_unset sample_request.headers_in "Transfer-Encoding")
          "Content-Length"
          (apr_off_t_toa (data_length_sum [.data .heap [1, 2], .data .heap [3], .eos] : Int)) ∧
      r1.replay_filters =
        { kept_body := [.data .heap [1, 2], .data .heap [3], .eos], offset := 0,
          remaining := (data_length_sum [.data .heap [1, 2], .data .heap [3], .eos] : Int) } ::
          sample_request.replay_filters) :=
  ⟨by decide,
   length_correctness scripted_source 3 sample_request "chunked"
     [.data .heap [1, 2], .data .heap [3], .eos] [] (by decide) (by decide) (by decide)
     (by decide)⟩

/-! ## Header tables and decimal strings -/

theorem key_eq_trans_false (k k1 k2 : String) (h1 : key_eq k k1 = true)
    (h2 : key_eq k1 k2 = false) : key_eq k k2 = false := by
  simp only [key_eq, decide_eq_true_eq, decide_eq_false_iff_not] at *
  rw [h1]
  exact h2

theorem apr_table_get_unset_self (t : apr_table_t) (key : String) :
    apr_table_get (apr_table_unset t key) key = none := by
  induction t with
  | nil => rfl
  | cons kv rest ih =>
    obtain ⟨k, v⟩ := kv
    unfold apr_table_unset at ih ⊢
    by_cases h : key_eq k key = true
    · simp only [List.filter_cons, h, Bool.not_true, Bool.false_eq_true, if_false]
      exact ih
    · simp only [List.filter_cons, h, Bool.not_false, if_true, apr_table_get, if_false]
      exact ih

theorem apr_table_unset_keys (t : apr_table_t) (key : String) :
    ∀ kv ∈ apr_table_unset t key, key_eq kv.1 key = false := by
  intro kv h
  unfold apr_table_unset at h
  simpa using (List.mem_filter.mp h).2

theorem apr_table_unset_subset (t : apr_table_t) (key : String) :
    ∀ kv ∈ apr_table_unset t key, kv ∈ t := by
  intro kv h
  unfold apr_table_unset at h
  exact (List.mem_filter.mp h).1

theorem apr_table_setn_keys (t : apr_table_t) (key val : String) :
    ∀ kv ∈ apr_table_setn t key val,
      key_eq kv.1 key = true ∨ kv ∈ t ∨ kv = (key, val) := by
  induction t with
  | nil =>
    intro kv h
    simp only [apr_table_setn, List.mem_singleton] at h
    exact Or.inr (Or.inr h)
  | cons e rest ih =>
    obtain ⟨k, v⟩ := e
    intro kv h
    unfold apr_table_setn at h
    by_cases hk : key_eq k key = true
    · simp only [hk, if_true] at h
      rcases List.mem_cons.mp h with h2 | h2
      · left; rw [h2]; exact hk
      · right; left
        exact List.mem_cons_of_mem _ (apr_table_unset_subset rest key kv h2)
    · simp only [hk, if_false] at h
      rcases List.mem_cons.mp h with h2 | h2
      · right; left; rw [h2]; exact List.mem_cons_self _ _
      · rcases ih kv h2 with h1 | h1 | h1
        · exact Or.inl h1
        · exact Or.inr (Or.inl (List.mem_cons_of_mem _ h1))
        · exact Or.inr (Or.inr h1)

theorem apr_table_get_setn_self (t : apr_table_t) (key val : String) :
    apr_table_get (apr_table_setn t key val) key = some val := by
  have hrefl : key_eq key key = true := by simp [key_eq]
  induction t with
  | nil => simp [apr_table_setn, apr_table_get, hrefl]
  | cons e rest ih =>
    obtain ⟨k, v⟩ := e
    unfold apr_table_setn
    by_cases hk : key_eq k key = true
    · simp [hk, apr_table_get]
    · simp only [hk, if_false, apr_table_get, Bool.false_eq_true]
      exact ih

theorem apr_table_get_none_of_keys (t : apr_table_t) (key : String)
    (h : ∀ kv ∈ t, key_eq kv.1 key = false) : apr_table_get t key = none := by
  induction t with
  | nil => rfl
  | cons e rest ih =>
    obtain ⟨k, v⟩ := e
    have hk := h (k, v) (List.mem_cons_self _ _)
    simp only at hk
    simp only [apr_table_get, hk, Bool.false_eq_true, if_false]
    exact ih (fun kv hkv => h kv (List.mem_cons_of_mem _ hkv))

theorem digitChar_eq (d : Nat) (h : d < 10) : Nat.digitChar d = Char.ofNat (48 + d) := by
  interval_cases d <;> rfl

theorem apr_off_t_toa_loop_eq (fuel n : Nat) (start : List Char) :
    apr_off_t_toa_loop fuel n start = Nat.toDigitsCore 10 fuel n start := by
  induction fuel generalizing n start with
  | zero => rfl
  | succ fuel ih =>
    unfold apr_off_t_toa_loop Nat.toDigitsCore
    simp only [digitChar_eq (n % 10) (Nat.mod_lt _ (by decide)), ne_eq, ite_not, ih]

theorem apr_off_t_toa_nat (n : Nat) : apr_off_t_toa (n : Int) = Nat.repr n := by
  have h : ¬ ((n : Int) < 0) := by omega
  simp only [apr_off_t_toa, Int.natAbs_ofNat, h, if_false, apr_off_t_toa_loop_eq, Nat.repr,
    Nat.toDigits, List.asString]

/-! ## The claims about the handler -/

theorem mod_dechunk_handler_declines {σ : Type} (src : input_filter σ) (fuel : Nat)
    (r : request_rec σ)
    (h : r.dechunk_on = 0 ∨ apr_table_get r.headers_in "Transfer-Encoding" = none ∨
      ∃ tenc, apr_table_get r.headers_in "Transfer-Encoding" = some tenc ∧
        apr_strnatcasecmp tenc "chunked" ≠ 0) :
    mod_dechunk_handler src fuel r = some (DECLINED, r) := by
  unfold mod_dechunk_handler
  by_cases hon : r.dechunk_on = 0
  · simp only [hon, if_true]
  · simp only [hon, if_false]
    rcases h with h | h | ⟨tenc, h1, h2⟩
    · exact absurd h hon
    · simp only [h]
    · simp only [h1, ne_eq, h2, not_false_eq_true, if_true]

theorem mod_dechunk_handler_failure {σ : Type} (src : input_filter σ) (fuel : Nat)
    (r : request_rec σ) (tenc : String) (status : apr_status_t) (kept : apr_bucket_brigade)
    (up : σ) (hon : r.dechunk_on ≠ 0)
    (hte : apr_table_get r.headers_in "Transfer-Encoding" = some tenc)
    (hch : apr_strnatcasecmp tenc "chunked" = 0)
    (hrd : read_complete_body src fuel r.input_filters [] = some (status, kept, up))
    (hst : status ≠ APR_SUCCESS) :
    mod_dechunk_handler src fuel r =
      some (HTTP_INTERNAL_SERVER_ERROR, { r with input_filters := up }) := by
  unfold mod_dechunk_handler
  simp only [hon, if_false, hte, hch, ne_eq, not_true_eq_false, hrd, hst, not_false_eq_true,
    if_true, ite_self]

/-- C11, header side effects. When the module is on, the Transfer-Encoding value
passes the chunked test and the collection succeeds with the store kept, the
handler returns DECLINED; in the request it leaves, no header entry has the key
Transfer-Encoding (so a lookup finds none), the Content-Length looked up is the
decimal string of the computed length, which is the sum of the data segment
lengths of kept, and the replay filter is installed on top of the filters that
were there. -/
theorem header_side_effects {σ : Type} (src : input_filter σ) (fuel : Nat)
    (r : request_rec σ) (tenc : String) (kept : apr_bucket_brigade) (up : σ)
    (hon : r.dechunk_on ≠ 0)
    (hte : apr_table_get r.headers_in "Transfer-Encoding" = some tenc)
    (hch : apr_strnatcasecmp tenc "chunked" = 0)
    (hrd : read_complete_body src fuel r.input_filters [] = some (APR_SUCCESS, kept, up)) :
    ∃ r1, mod_dechunk_handler src fuel r = some (DECLINED, r1) ∧
      (∀ kv ∈ r1.headers_in, key_eq kv.1 "Transfer-Encoding" = false) ∧
      apr_table_get r1.headers_in "Transfer-Encoding" = none ∧
      apr_brigade_length kept = (data_length_sum kept : Int) ∧
      apr_table_get r1.headers_in "Content-Length" = some (Nat.repr (data_length_sum kept)) ∧
      r1.replay_filters =
        { kept_body := kept, offset := 0, remaining := apr_brigade_length kept } ::
          r.replay_filters := by
  have hlen : apr_brigade_length kept = (data_length_sum kept : Int) := by
    rw [apr_brigade_length_eq, data_length_sum_eq]
  have hkeys : ∀ kv ∈ apr_table_setn (apr_table_unset r.headers_in "Transfer-Encoding")
      "Content-Length" (apr_off_t_toa (apr_brigade_length kept)),
      key_eq kv.1 "Transfer-Encoding" = false := by
    intro kv hkv
    rcases apr_table_setn_keys _ _ _ kv hkv with h | h | h
    · exact key_eq_trans_false _ _ _ h (by decide)
    · exact apr_table_unset_keys _ _ kv h
    · rw [h]
      show key_eq "Content-Length" "Transfer-Encoding" = false
      decide
  refine ⟨_, mod_dechunk_handler_success src fuel r tenc kept up hon hte hch hrd,
    hkeys, apr_table_get_none_of_keys _ _ hkeys, hlen, ?_, rfl⟩
  simp only [apr_table_get_setn_self, hlen, apr_off_t_toa_nat]

/-- Witness for C11: the sample request, whose collected body has 3 bytes. -/
theorem header_side_effects_witness :
    (sample_request.dechunk_on ≠ 0 ∧
      apr_table_get sample_request.headers_in "Transfer-Encoding" = some "chunked" ∧
      apr_strnatcasecmp "chunked" "chunked" = 0 ∧
      read_complete_body scripted_source 3 sample_request.input_filters [] =
        some (APR_SUCCESS, [.data .heap [1, 2], .data .heap [3], .eos], [])) ∧
    ∃ r1, mod_dechunk_handler scripted_source 3 sample_request = some (DECLINED, r1) ∧
      (∀ kv ∈ r1.headers_in, key_eq kv.1 "Transfer-Encoding" = false) ∧
      apr_table_get r1.headers_in "Transfer-Encoding" = none ∧
      apr_brigade_length [.data .heap [1, 2], .data .heap [3], .eos] =
        (data_length_sum [.data .heap [1, 2], .data .heap [3], .eos] : Int) ∧
      apr_table_get r1.headers_in "Content-Length" =
        some (Nat.repr (data_length_sum [.data .heap [1, 2], .data .heap [3], .eos])) ∧
      r1.replay_filters =
        { kept_body := [.data .heap [1, 2], .data .heap [3], .eos], offset := 0,
          remaining := apr_brigade_length [.data .heap [1, 2], .data .heap [3], .eos] } ::
          sample_request.replay_filters :=
  ⟨by decide,
   header_side_effects scripted_source 3 sample_request "chunked"
     [.data .heap [1, 2], .data .heap [3], .eos] [] (by decide) (by decide) (by decide)
     (by decide)⟩

/-- C13, disabled means untouched. With dechunk_on = 0 the handler returns
DECLINED and leaves the request exactly as it was, whatever its headers, the
source and the fuel: the input chain is in the state it was in (nothing was
read), every header is unchanged and no replay filter is installed. -/
theorem disabled_means_untouched {σ : Type} (src : input_filter σ) (fuel : Nat)
    (r : request_rec σ) (hoff : r.dechunk_on = 0) :
    mod_dechunk_handler src fuel r = some (DECLINED, r) :=
  mod_dechunk_handler_declines src fuel r (Or.inl hoff)

/-- Witness for C13: the sample chunked request with the module switched off. -/
theorem disabled_means_untouched_witness :
    sample_request_off.dechunk_on = 0 ∧
    mod_dechunk_handler scripted_source 3 sample_request_off =
      some (DECLINED, sample_request_off) :=
  ⟨by decide, disabled_means_untouched scripted_source 3 sample_request_off (by decide)⟩

/-- C14, failed activation. When the module is on, the Transfer-Encoding value
passes the chunked test and the collection ends in a status other than
APR_SUCCESS (AP_FILTER_ERROR or any other), the handler returns
HTTP_INTERNAL_SERVER_ERROR and the request it leaves differs from the one it got
in the state of the input chain only: the headers are the same table
(Transfer-Encoding still there, nothing set) and no replay filter was added. -/
theorem failed_activation_atomic {σ : Type} (src : input_filter σ) (fuel : Nat)
    (r : request_rec σ) (tenc : String) (status : apr_status_t) (kept : apr_bucket_brigade)
    (up : σ) (hon : r.dechunk_on ≠ 0)
    (hte : apr_table_get r.headers_in "Transfer-Encoding" = some tenc)
    (hch : apr_strnatcasecmp tenc "chunked" = 0)
    (hrd : read_complete_body src fuel r.input_filters [] = some (status, kept, up))
    (hst : status ≠ APR_SUCCESS) :
    ∃ r1, mod_dechunk_handler src fuel r = some (HTTP_INTERNAL_SERVER_ERROR, r1) ∧
      r1.headers_in = r.headers_in ∧
      apr_table_get r1.headers_in "Transfer-Encoding" = some tenc ∧
      r1.replay_filters = r.replay_filters ∧
      r1.dechunk_on = r.dechunk_on ∧ r1.input_filters = up :=
  ⟨_, mod_dechunk_handler_failure src fuel r tenc status kept up hon hte hch hrd hst,
    rfl, hte, rfl, rfl, rfl⟩

/-- Witness for C14: the sample request over the script whose second read
reports AP_FILTER_ERROR. -/
theorem failed_activation_atomic_witness :
    (sample_request_fatal.dechunk_on ≠ 0 ∧
      apr_table_get sample_request_fatal.headers_in "Transfer-Encoding" = some "chunked" ∧
      apr_strnatcasecmp "chunked" "chunked" = 0 ∧
      read_complete_body scripted_source 2 sample_request_fatal.input_filters [] =
        some (AP_FILTER_ERROR, [.data .heap [1, 2]], []) ∧
      AP_FILTER_ERROR ≠ APR_SUCCESS) ∧
    ∃ r1, mod_dechunk_handler scripted_source 2 sample_request_fatal =
        some (HTTP_INTERNAL_SERVER_ERROR, r1) ∧
      r1.headers_in = sample_request_fatal.headers_in ∧
      apr_table_get r1.headers_in "Transfer-Encoding" = some "chunked" ∧
      r1.replay_filters = sample_request_fatal.replay_filters ∧
      r1.dechunk_on = sample_request_fatal.dechunk_on ∧ r1.input_filters = [] :=
  ⟨by decide,
   failed_activation_atomic scripted_source 2 sample_request_fatal "chunked" AP_FILTER_ERROR
     [.data .heap [1, 2]] [] (by decide) (by decide) (by decide) (by decide) (by decide)⟩

/-- C15, worked example. For the source that delivers "Hello", then " World"
and the end marker, the handler returns DECLINED, the Transfer-Encoding header
is gone, Content-Length is "11" and the replay context is the store with offset
0 and remaining 11. A bounded read of 4 bytes then returns one segment with the
bytes "Hell" and a following bounded read of 7 bytes returns the segments "o"
and " World", leaving offset 11 and remaining 0. -/
theorem hello_world_example :
    mod_dechunk_handler scripted_source 3 hello_world_request =
      some (DECLINED,
        { dechunk_on := 1,
          headers_in := [("Host", "example"), ("Content-Length", "11")],
          input_filters := [],
          replay_filters :=
            [{ kept_body := [.data .heap hello_bytes, .data .heap world_bytes, .eos],
               offset := 0, remaining := 11 }] }) ∧
    replay_reads scripted_source
        [⟨.AP_MODE_READBYTES, .APR_BLOCK_READ, 4⟩, ⟨.AP_MODE_READBYTES, .APR_BLOCK_READ, 7⟩]
        { kept_body := [.data .heap hello_bytes, .data .heap world_bytes, .eos],
          offset := 0, remaining := 11 } [] =
      [.returned APR_SUCCESS [.data .heap [72, 101, 108, 108]]
          { kept_body := [.data .heap [72, 101, 108, 108], .data .heap [111],
              .data .heap world_bytes, .eos],
            offset := 4, remaining := 7 } [],
       .returned APR_SUCCESS [.data .heap [111], .data .heap world_bytes]
          { kept_body := [.data .heap [72, 101, 108, 108], .data .heap [111],
              .data .heap world_bytes, .eos],
            offset := 11, remaining := 0 } []] ∧
    (replay_reads scripted_source
        [⟨.AP_MODE_READBYTES, .APR_BLOCK_READ, 4⟩, ⟨.AP_MODE_READBYTES, .APR_BLOCK_READ, 7⟩]
        { kept_body := [.data .heap hello_bytes, .data .heap world_bytes, .eos],
          offset := 0, remaining := 11 } []).map (fun o => brigade_bytes o.b) =
      [[72, 101, 108, 108], [111, 32, 87, 111, 114, 108, 100]] := by
  refine ⟨rfl, ?_, ?_⟩
  · decide
  · decide

/-! ## Failing partitions and line reads -/

theorem apr_brigade_partition_fail_bb (bb : apr_bucket_brigade) (p : apr_off_t)
    (h : (apr_brigade_partition bb p).status ≠ APR_SUCCESS) :
    (apr_brigade_partition bb p).bb = bb := by
  by_cases hneg : p < 0
  · rw [apr_brigade_partition_neg bb p hneg]
  · obtain ⟨n, rfl⟩ := Int.eq_ofNat_of_zero_le (not_lt.mp hneg)
    by_cases hle : n ≤ (brigade_bytes bb).length
    · exact absurd (apr_brigade_partition_ok bb n hle).1 h
    · exact (apr_brigade_partition_incomplete bb n (by omega)).2

/-- C18, atomic partition failure. In the active state of a bounded-byte or
line read: if the partition at offset fails, the call returns its status with
the caller's brigade and the whole context as they were; if that one succeeds
and the partition at offset + clamped maxBytes fails, the call returns the
status of the second, with the caller's brigade as it was and offset and
remaining unchanged (kept_body is as the first partition left it, with the same
bytes). -/
theorem partition_failure_atomic {σ : Type} (next : input_filter σ) (ctx : replay_ctx_t)
    (up : σ) (b : apr_bucket_brigade) (mode : ap_input_mode_t) (block : apr_read_type_e)
    (readbytes : apr_off_t)
    (hmode : mode = .AP_MODE_READBYTES ∨ mode = .AP_MODE_GETLINE)
    (hrem : 0 < ctx.remaining) :
    ((apr_brigade_partition ctx.kept_body ctx.offset).status ≠ APR_SUCCESS →
      mod_dechunk_replay_kept_body next ctx up b mode block readbytes =
        .returned (apr_brigade_partition ctx.kept_body ctx.offset).status b ctx up) ∧
    ((apr_brigade_partition ctx.kept_body ctx.offset).status = APR_SUCCESS →
      (apr_brigade_partition (apr_brigade_partition ctx.kept_body ctx.offset).bb
        (ctx.offset + (if readbytes > ctx.remaining then ctx.remaining else readbytes))).status
          ≠ APR_SUCCESS →
      mod_dechunk_replay_kept_body next ctx up b mode block readbytes =
        .returned
          (apr_brigade_partition (apr_brigade_partition ctx.kept_body ctx.offset).bb
            (ctx.offset +
              (if readbytes > ctx.remaining then ctx.remaining else readbytes))).status
          b
          { kept_body := (apr_brigade_partition ctx.kept_body ctx.offset).bb,
            offset := ctx.offset, remaining := ctx.remaining } up ∧
      brigade_bytes (apr_brigade_partition ctx.kept_body ctx.offset).bb =
        brigade_bytes ctx.kept_body) := by
  have hm : ¬ (mode ≠ .AP_MODE_READBYTES ∧ mode ≠ .AP_MODE_GETLINE) := by
    rcases hmode with h | h <;> simp [h]
  have hr : ¬ (ctx.remaining ≤ 0) := not_le.mpr hrem
  constructor
  · intro h1
    unfold mod_dechunk_replay_kept_body
    simp only [hm, hr, if_false, h1, ne_eq, not_false_eq_true, if_true,
      apr_brigade_partition_fail_bb ctx.kept_body ctx.offset h1]
  · intro h1 h2
    refine ⟨?_, apr_brigade_partition_bytes _ _⟩
    unfold mod_dechunk_replay_kept_body
    simp only [hm, hr, if_false, h1, ne_eq, not_true_eq_false, h2, not_false_eq_true, if_true,
      apr_brigade_partition_fail_bb _ _ h2]

/-- Witness for C18: a cursor whose offset lies beyond its 5-byte store, so that
the first partition fails with APR_INCOMPLETE. -/
theorem partition_failure_atomic_witness :
    ((ap_input_mode_t.AP_MODE_READBYTES = .AP_MODE_READBYTES ∨
        ap_input_mode_t.AP_MODE_READBYTES = .AP_MODE_GETLINE) ∧
      0 < ({ kept_body := [.data .heap [1, 2, 3, 4, 5], .eos], offset := 7,
             remaining := 3 } : replay_ctx_t).remaining) ∧
    (apr_brigade_partition [.data .heap [1, 2, 3, 4, 5], .eos] 7).status = APR_INCOMPLETE ∧
    mod_dechunk_replay_kept_body drained_filter
        { kept_body := [.data .heap [1, 2, 3, 4, 5], .eos], offset := 7, remaining := 3 } () []
        .AP_MODE_READBYTES .APR_BLOCK_READ 2 =
      .returned APR_INCOMPLETE []
        { kept_body := [.data .heap [1, 2, 3, 4, 5], .eos], offset := 7, remaining := 3 } () :=
  ⟨by decide, by decide,
   (partition_failure_atomic drained_filter
     { kept_body := [.data .heap [1, 2, 3, 4, 5], .eos], offset := 7, remaining := 3 } () []
     .AP_MODE_READBYTES .APR_BLOCK_READ 2 (by decide) (by decide)).1 (by decide)⟩

theorem cursor_ok_partitions (ctx : replay_ctx_t) (readbytes : apr_off_t)
    (hok : cursor_ok ctx) (hrb : 0 ≤ readbytes) :
    ctx.offset + (if readbytes > ctx.remaining then ctx.remaining else readbytes) ≤
      apr_brigade_length ctx.kept_body ∧
    (apr_brigade_partition ctx.kept_body ctx.offset).status = APR_SUCCESS ∧
    (apr_brigade_partition (apr_brigade_partition ctx.kept_body ctx.offset).bb
      (ctx.offset + (if readbytes > ctx.remaining then ctx.remaining else readbytes))).status =
        APR_SUCCESS := by
  obtain ⟨kept, offset, remaining⟩ := ctx
  obtain ⟨h1, h2, h3⟩ := hok
  simp only at h1 h2 h3 ⊢
  rw [apr_brigade_length_eq] at h3 ⊢
  obtain ⟨off, rfl⟩ := Int.eq_ofNat_of_zero_le h1
  obtain ⟨rem, rfl⟩ := Int.eq_ofNat_of_zero_le h2
  obtain ⟨rb, rfl⟩ := Int.eq_ofNat_of_zero_le hrb
  have h3n : off + rem = (brigade_bytes kept).length := by exact_mod_cast h3
  have hclamp : (if (rb : Int) > (rem : Int) then (rem : Int) else (rb : Int)) =
      ((min rb rem : Nat) : Int) := by
    split_ifs with h <;> omega
  rw [hclamp]
  have hsum : (off : Int) + ((min rb rem : Nat) : Int) = ((off + min rb rem : Nat) : Int) := by
    push_cast; rfl
  rw [hsum]
  refine ⟨by exact_mod_cast (show off + min rb rem ≤ (brigade_bytes kept).length by omega),
    (apr_brigade_partition_ok kept off (by omega)).1, ?_⟩
  apply (apr_brigade_partition_ok _ (off + min rb rem) _).1
  rw [apr_brigade_partition_bytes]
  omega

theorem cursor_ok_step {σ : Type} (next : input_filter σ) (ctx : replay_ctx_t) (up : σ)
    (b : apr_bucket_brigade) (mode : ap_input_mode_t) (block : apr_read_type_e)
    (readbytes : apr_off_t) (hok : cursor_ok ctx) (hrb : 0 ≤ readbytes)
    (s : apr_status_t) (b1 : apr_bucket_brigade) (ctx1 : replay_ctx_t) (up1 : σ)
    (h : mod_dechunk_replay_kept_body next ctx up b mode block readbytes =
      .returned s b1 ctx1 up1) : cursor_ok ctx1 := by
  by_cases hm : mode ≠ .AP_MODE_READBYTES ∧ mode ≠ .AP_MODE_GETLINE
  · rw [replay_unsupported_mode next ctx up b mode block readbytes hm] at h
    simp only [replay_outcome.returned.injEq] at h
    rw [← h.2.2.1]; exact hok
  · by_cases hr : ctx.remaining ≤ 0
    · rw [replay_exhausted next ctx up b mode block readbytes hr] at h
      simp only [replay_outcome.returned.injEq] at h
      rw [← h.2.2.1]; exact hok
    · have hmode : mode = .AP_MODE_READBYTES ∨ mode = .AP_MODE_GETLINE := by
        by_contra hc
        exact hm ⟨fun e => hc (Or.inl e), fun e => hc (Or.inr e)⟩
      obtain ⟨kept, offset, remaining⟩ := ctx
      obtain ⟨h1, h2, h3⟩ := hok
      simp only at h1 h2 h3 hr
      rw [apr_brigade_length_eq] at h3
      obtain ⟨off, rfl⟩ := Int.eq_ofNat_of_zero_le h1
      obtain ⟨rem, rfl⟩ := Int.eq_ofNat_of_zero_le h2
      obtain ⟨rb, rfl⟩ := Int.eq_ofNat_of_zero_le hrb
      have h3n : off + rem = (brigade_bytes kept).length := by exact_mod_cast h3
      have hrem : 0 < rem := by
        have : ¬ ((rem : Int) ≤ 0) := hr
        omega
      rcases Nat.eq_zero_or_pos rb with hz | hpos
      · subst hz
        obtain ⟨out, kept1, e1, -, -⟩ :=
          replay_zero_length_read next kept off rem up b mode block hmode hrem h3n
        exact absurd (e1.symm.trans h) (by simp)
      · obtain ⟨out, kept1, e1, -, e3⟩ :=
          replay_active_read next kept off rem rb up b mode block hmode hrem h3n hpos
        rw [e1] at h
        simp only [replay_outcome.returned.injEq] at h
        rw [← h.2.2.1]
        refine ⟨Int.ofNat_nonneg _, Int.ofNat_nonneg _, ?_⟩
        simp only [apr_brigade_length_eq, e3]
        show ((off + min rb rem : Nat) : Int) + ((rem - min rb rem : Nat) : Int) =
          ((brigade_bytes kept).length : Int)
        omega

theorem cursor_ok_reads {σ : Type} (next : input_filter σ) (rs : List read_request)
    (hrs : ∀ r ∈ rs, 0 ≤ r.readbytes) :
    ∀ (ctx : replay_ctx_t) (up : σ), cursor_ok ctx →
      ∀ s b1 ctx1 up1, replay_outcome.returned s b1 ctx1 up1 ∈ replay_reads next rs ctx up →
        cursor_ok ctx1 := by
  induction rs with
  | nil =>
    intro ctx up _ s b1 ctx1 up1 h
    simp [replay_reads] at h
  | cons r rs ih =>
    intro ctx up hok s b1 ctx1 up1 h
    have hr := hrs r (List.mem_cons_self _ _)
    have hrs2 : ∀ x ∈ rs, 0 ≤ x.readbytes := fun x hx => hrs x (List.mem_cons_of_mem _ hx)
    unfold replay_reads at h
    cases hcall : mod_dechunk_replay_kept_body next ctx up [] r.mode r.block r.readbytes with
    | returned s2 b2 ctx2 up2 =>
      have hok2 := cursor_ok_step next ctx up [] r.mode r.block r.readbytes hok hr s2 b2 ctx2
        up2 hcall
      rw [hcall] at h
      simp only at h
      rcases List.mem_cons.mp h with h1 | h1
      · simp only [replay_outcome.returned.injEq] at h1
        rw [h1.2.2.1]; exact hok2
      · exact ih hrs2 ctx2 up2 hok2 s b1 ctx1 up1 h1
    | undefined b2 ctx2 up2 =>
      rw [hcall] at h
      simp at h

/-- C16, replay never fails under correct bookkeeping. Take the context the
handler builds over a store (offset 0, remaining the byte length of kept_body)
and any sequence of reads with maxBytes ≥ 0. The initial context and every
context a call of the sequence returns have correct bookkeeping, and for a read
with maxBytes ≥ 0 issued in such a context 0 ≤ offset, offset + clamped maxBytes
is at most the byte length of kept_body and both partition calls of the filter
return APR_SUCCESS, so neither error branch is taken. -/
theorem replay_never_out_of_range {σ : Type} (next : input_filter σ)
    (kept : apr_bucket_brigade) (up : σ) (rs : List read_request)
    (hrs : ∀ r ∈ rs, 0 ≤ r.readbytes) :
    ∀ ctx : replay_ctx_t,
      (ctx = ⟨kept, 0, apr_brigade_length kept⟩ ∨
        ∃ s b1 up1, replay_outcome.returned s b1 ctx up1 ∈
          replay_reads next rs ⟨kept, 0, apr_brigade_length kept⟩ up) →
      cursor_ok ctx ∧
      ∀ readbytes : apr_off_t, 0 ≤ readbytes →
        0 ≤ ctx.offset ∧
        ctx.offset + (if readbytes > ctx.remaining then ctx.remaining else readbytes) ≤
          apr_brigade_length ctx.kept_body ∧
        (apr_brigade_partition ctx.kept_body ctx.offset).status = APR_SUCCESS ∧
        (apr_brigade_partition (apr_brigade_partition ctx.kept_body ctx.offset).bb
          (ctx.offset +
            (if readbytes > ctx.remaining then ctx.remaining else readbytes))).status =
          APR_SUCCESS := by
  have hinit : cursor_ok ⟨kept, 0, apr_brigade_length kept⟩ := by
    refine ⟨le_refl _, ?_, ?_⟩
    · simp only [apr_brigade_length_eq]
      exact Int.ofNat_nonneg _
    · simp only [zero_add]
  intro ctx hreach
  have hok : cursor_ok ctx := by
    rcases hreach with h | ⟨s, b1, up1, h⟩
    · rw [h]; exact hinit
    · exact cursor_ok_reads next rs hrs _ up hinit s b1 ctx up1 h
  refine ⟨hok, fun readbytes hrb => ⟨hok.1, cursor_ok_partitions ctx readbytes hok hrb⟩⟩

/-- Witness for C16: the store "Hello", " World", end marker read with a
bounded read of 4 bytes and a line read of 9 bytes. -/
theorem replay_never_out_of_range_witness :
    (∀ r ∈ [(⟨.AP_MODE_READBYTES, .APR_BLOCK_READ, 4⟩ : read_request),
        ⟨.AP_MODE_GETLINE, .APR_BLOCK_READ, 9⟩], 0 ≤ r.readbytes) ∧
    ∀ ctx : replay_ctx_t,
      (ctx = ⟨[.data .heap hello_bytes, .data .heap world_bytes, .eos], 0,
          apr_brigade_length [.data .heap hello_bytes, .data .heap world_bytes, .eos]⟩ ∨
        ∃ s b1 up1, replay_outcome.returned s b1 ctx up1 ∈
          replay_reads drained_filter
            [⟨.AP_MODE_READBYTES, .APR_BLOCK_READ, 4⟩, ⟨.AP_MODE_GETLINE, .APR_BLOCK_READ, 9⟩]
            ⟨[.data .heap hello_bytes, .data .heap world_bytes, .eos], 0,
              apr_brigade_length [.data .heap hello_bytes, .data .heap world_bytes, .eos]⟩
            ()) →
      cursor_ok ctx ∧
      ∀ readbytes : apr_off_t, 0 ≤ readbytes →
        0 ≤ ctx.offset ∧
        ctx.offset + (if readbytes > ctx.remaining then ctx.remaining else readbytes) ≤
          apr_brigade_length ctx.kept_body ∧
        (apr_brigade_partition ctx.kept_body ctx.offset).status = APR_SUCCESS ∧
        (apr_brigade_partition (apr_brigade_partition ctx.kept_body ctx.offset).bb
          (ctx.offset +
            (if readbytes > ctx.remaining then ctx.remaining else readbytes))).status =
          APR_SUCCESS :=
  ⟨by decide,
   replay_never_out_of_range drained_filter
     [.data .heap hello_bytes, .data .heap world_bytes, .eos] ()
     [⟨.AP_MODE_READBYTES, .APR_BLOCK_READ, 4⟩, ⟨.AP_MODE_GETLINE, .APR_BLOCK_READ, 9⟩]
     (by decide)⟩

/-! ## What a read does to the store -/

theorem char_lt_iff (c d : Char) : c < d ↔ c.toNat < d.toNat := Iff.rfl

theorem char_not_lt_nul (x : Char) : ¬ (x < Char.ofNat 0) := by
  rw [char_lt_iff]
  have : (Char.ofNat 0).toNat = 0 := by decide
  omega

theorem char_nul_lt (x : Char) (h : x.toNat ≠ 0) : Char.ofNat 0 < x := by
  rw [char_lt_iff]
  have : (Char.ofNat 0).toNat = 0 := by decide
  omega

theorem apr_toupper_toNat_ne_zero (c : Char) (h : c.toNat ≠ 0) : (apr_toupper c).toNat ≠ 0 := by
  unfold apr_toupper Char.toUpper
  simp only
  split_ifs with h1
  · obtain ⟨h2, h3⟩ := h1
    have h4 : 97 ≤ c.toNat := h2
    interval_cases hc : c.toNat <;> decide
  · exact h

theorem dropWhile_isspace_self (b : List Char) (hb : ∀ c ∈ b, apr_isspace c = false) :
    b.dropWhile apr_isspace = b := by
  cases b with
  | nil => rfl
  | cons c t => simp [List.dropWhile, hb c (List.mem_cons_self _ _)]

theorem filter_dropWhile_isspace (a : List Char) :
    (a.dropWhile apr_isspace).filter (fun c => !apr_isspace c) =
      a.filter (fun c => !apr_isspace c) := by
  induction a with
  | nil => rfl
  | cons c t ih =>
    by_cases h : apr_isspace c = true
    · simp [List.dropWhile, List.filter, h, ih]
    · simp [List.dropWhile, h]

theorem dropWhile_isspace_head (a : List Char) (c : Char) (t : List Char)
    (h : a.dropWhile apr_isspace = c :: t) : apr_isspace c = false ∧ c ∈ a ∧
      t.length < a.length ∧ ∀ x ∈ t, x ∈ a := by
  induction a with
  | nil => simp at h
  | cons d s ih =>
    by_cases hd : apr_isspace d = true
    · simp only [List.dropWhile, hd] at h
      obtain ⟨i1, i2, i3, i4⟩ := ih h
      exact ⟨i1, List.mem_cons_of_mem _ i2, by simp only [List.length_cons]; omega,
        fun x hx => List.mem_cons_of_mem _ (i4 x hx)⟩
    · simp only [List.dropWhile, hd] at h
      simp only [List.cons.injEq] at h
      obtain ⟨rfl, rfl⟩ := h
      exact ⟨by simpa using hd, List.mem_cons_self _ _, by simp,
        fun x hx => List.mem_cons_of_mem _ hx⟩

theorem strnatcmp0_letters (fuel : Nat) :
    ∀ (a b : List Char), (∀ c ∈ a, c.toNat ≠ 0) →
      (∀ c ∈ b, apr_isspace c = false ∧ apr_isdigit c = false ∧ c.toNat ≠ 0) →
      a.length < fuel →
      (strnatcmp0 fuel a b true = 0 ↔
        (a.filter (fun c => !apr_isspace c)).map apr_toupper = b.map apr_toupper) := by
  induction fuel with
  | zero => intro a b _ _ hf; omega
  | succ fuel ih =>
    intro a b ha hb hf
    have hnul0 : (Char.ofNat 0).toNat = 0 := by decide
    have hnuld : apr_isdigit (Char.ofNat 0) = false := by decide
    have hnulu : apr_toupper (Char.ofNat 0) = Char.ofNat 0 := by decide
    unfold strnatcmp0
    rw [dropWhile_isspace_self b (fun c hc => (hb c hc).1), ← filter_dropWhile_isspace a]
    cases ha' : a.dropWhile apr_isspace with
    | nil =>
      cases b with
      | nil => simp [cstr_head, hnuld, hnul0]
      | cons cb bt =>
        obtain ⟨-, hbd, hbn⟩ := hb cb (List.mem_cons_self _ _)
        have hlt : Char.ofNat 0 < apr_toupper cb :=
          char_nul_lt _ (apr_toupper_toNat_ne_zero cb hbn)
        simp [cstr_head, hnuld, hnul0, hbn, hnulu, hlt]
    | cons ca at_ =>
      obtain ⟨hsp, hmem, hlen, hsub⟩ := dropWhile_isspace_head a ca at_ ha'
      have hcan : ca.toNat ≠ 0 := ha ca hmem
      have hfil : (ca :: at_).filter (fun c => !apr_isspace c) =
          ca :: at_.filter (fun c => !apr_isspace c) := by
        simp [List.filter, hsp]
      rw [hfil]
      cases b with
      | nil =>
        have hgt : apr_toupper ca > Char.ofNat 0 :=
          char_nul_lt _ (apr_toupper_toNat_ne_zero ca hcan)
        have hnlt : ¬ (apr_toupper ca < Char.ofNat 0) := char_not_lt_nul _
        simp [cstr_head, hnuld, hnul0, hcan, hnulu, hgt, hnlt]
      | cons cb bt =>
        obtain ⟨-, hbd, hbn⟩ := hb cb (List.mem_cons_self _ _)
        have hrec := ih at_ bt (fun c hc => ha c (hsub c hc))
          (fun c hc => hb c (List.mem_cons_of_mem _ hc)) (by omega)
        simp only [cstr_head, List.headD_cons, hbd, Bool.and_false, Bool.false_eq_true,
          if_false, ne_eq, not_true_eq_false, hcan, decide_False, Bool.false_and, if_true,
          List.tail_cons, List.map_cons, List.cons.injEq]
        rcases lt_trichotomy (apr_toupper ca) (apr_toupper cb) with h | h | h
        · have hne : apr_toupper ca ≠ apr_toupper cb := ne_of_lt h
          simp [h, hne]
        · simp [h, hrec]
        · have hne : apr_toupper ca ≠ apr_toupper cb := ne_of_gt h
          have hnl : ¬ (apr_toupper ca < apr_toupper cb) := not_lt_of_gt h
          simp [h, hne, hnl]

theorem apr_strnatcasecmp_chunked (tenc : String) (hnul : ∀ c ∈ tenc.data, c.toNat ≠ 0) :
    apr_strnatcasecmp tenc "chunked" = 0 ↔ squeeze_upper tenc = "CHUNKED".data := by
  unfold apr_strnatcasecmp squeeze_upper
  have hb : ∀ c ∈ "chunked".data,
      apr_isspace c = false ∧ apr_isdigit c = false ∧ c.toNat ≠ 0 := by decide
  have hup : "chunked".data.map apr_toupper = "CHUNKED".data := by decide
  rw [← hup]
  exact strnatcmp0_letters (tenc.length + 1) tenc.data "chunked".data hnul hb
    (Nat.lt_succ_self _)

theorem mod_dechunk_handler_activated {σ : Type} (src : input_filter σ) (fuel : Nat)
    (r : request_rec σ) (tenc : String) (hon : r.dechunk_on ≠ 0)
    (hte : apr_table_get r.headers_in "Transfer-Encoding" = some tenc)
    (hch : apr_strnatcasecmp tenc "chunked" = 0) :
    mod_dechunk_handler src fuel r =
      (read_complete_body src fuel r.input_filters []).map (fun res =>
        if res.1 = APR_SUCCESS then
          (DECLINED,
            { r with
              headers_in := apr_table_setn (apr_table_unset r.headers_in "Transfer-Encoding")
                "Content-Length" (apr_off_t_toa (apr_brigade_length res.2.1)),
              input_filters := res.2.2,
              replay_filters := ⟨res.2.1, 0, apr_brigade_length res.2.1⟩ :: r.replay_filters })
        else (HTTP_INTERNAL_SERVER_ERROR, { r with input_filters := res.2.2 })) := by
  cases hrd : read_complete_body src fuel r.input_filters [] with
  | none =>
    unfold mod_dechunk_handler
    simp only [hon, if_false, hte, hch, ne_eq, not_true_eq_false, hrd, Option.map_none']
  | some res =>
    obtain ⟨status, kept, up⟩ := res
    by_cases hst : status = APR_SUCCESS
    · subst hst
      rw [mod_dechunk_handler_success src fuel r tenc kept up hon hte hch hrd]
      simp only [Option.map_some', if_true]
    · rw [mod_dechunk_handler_failure src fuel r tenc status kept up hon hte hch hrd hst]
      simp only [Option.map_some', hst, if_false]

/-- The chunked test of the handler, as the code has it. With the module on: a
request without Transfer-Encoding is declined untouched; for a value tenc (a C
string, so without NUL) the test apr_strnatcasecmp(tenc, "chunked") == 0 holds
exactly when tenc without its whitespace characters equals "chunked" ignoring
letter case; a value failing it is declined untouched, a value passing it makes
the handler run the collector on the input. -/
theorem chunked_test_characterization {σ : Type} (src : input_filter σ) (fuel : Nat)
    (r : request_rec σ) (hon : r.dechunk_on ≠ 0) :
    (apr_table_get r.headers_in "Transfer-Encoding" = none →
      mod_dechunk_handler src fuel r = some (DECLINED, r)) ∧
    (∀ tenc, apr_table_get r.headers_in "Transfer-Encoding" = some tenc →
      (∀ c ∈ tenc.data, c.toNat ≠ 0) →
      (apr_strnatcasecmp tenc "chunked" = 0 ↔ squeeze_upper tenc = "CHUNKED".data) ∧
      (squeeze_upper tenc ≠ "CHUNKED".data →
        mod_dechunk_handler src fuel r = some (DECLINED, r)) ∧
      (squeeze_upper tenc = "CHUNKED".data →
        mod_dechunk_handler src fuel r =
          (read_complete_body src fuel r.input_filters []).map (fun res =>
            if res.1 = APR_SUCCESS then
              (DECLINED,
                { r with
                  headers_in :=
                    apr_table_setn (apr_table_unset r.headers_in "Transfer-Encoding")
                      "Content-Length" (apr_off_t_toa (apr_brigade_length res.2.1)),
                  input_filters := res.2.2,
                  replay_filters :=
                    ⟨res.2.1, 0, apr_brigade_length res.2.1⟩ :: r.replay_filters })
            else (HTTP_INTERNAL_SERVER_ERROR, { r with input_filters := res.2.2 })))) := by
  refine ⟨fun h => mod_dechunk_handler_declines src fuel r (Or.inr (Or.inl h)), ?_⟩
  intro tenc hte hnul
  have hiff := apr_strnatcasecmp_chunked tenc hnul
  refine ⟨hiff, ?_, ?_⟩
  · intro hne
    exact mod_dechunk_handler_declines src fuel r
      (Or.inr (Or.inr ⟨tenc, hte, fun h => hne (hiff.mp h)⟩))
  · intro heq
    exact mod_dechunk_handler_activated src fuel r tenc hon hte (hiff.mpr heq)

/-- C12, the activation test, evaluated at the Transfer-Encoding value
"chun ked". The value does not equal "chunked" ignoring letter case, yet the
handler does not decline untouched: apr_strnatcasecmp skips the blank and
returns 0, the body is read to its end, Transfer-Encoding is removed,
Content-Length is set and the replay filter is installed. The value
"gzip, chunked" is declined with the request untouched. -/
theorem spaced_value_activates :
    "chun ked".data.map Char.toLower ≠ "chunked".data.map Char.toLower ∧
    apr_strnatcasecmp "chun ked" "chunked" = 0 ∧
    (mod_dechunk_handler scripted_source 3 sample_request_spaced).map
        (fun x => (x.1, x.2.headers_in, x.2.input_filters, x.2.replay_filters)) =
      some (DECLINED, [("Host", "example"), ("Content-Length", "3")], [],
        [{ kept_body := [.data .heap [1, 2], .data .heap [3], .eos], offset := 0,
           remaining := 3 }]) ∧
    (mod_dechunk_handler scripted_source 3 sample_request_gzip).map
        (fun x => (x.1, x.2.headers_in, x.2.input_filters, x.2.replay_filters)) =
      some (DECLINED, sample_request_gzip.headers_in, sample_request_gzip.input_filters,
        sample_request_gzip.replay_filters) := by
  refine ⟨by decide, by decide, ?_, ?_⟩
  · rfl
  · rfl

end ModDechunk
